import Mathlib

/-!
# ZIPFSZipFile: the archive index of `src/zipfs/ZIPFSZipFile.c`

A shallow embedding of the ZIP archive indexer, of its path lookup and of the
entry stream.

Conventions of the embedding.

* A byte is a `Nat`; a C string (`const char*`) is the list of its bytes before
  the terminating 0.  A function that receives a `const char*` first cuts its
  argument at the first 0 byte (`cstr`).
* The fixed-width fields are those the struct comments give: `unsigned long`
  is 4 bytes, `unsigned short` is 2 bytes, the machine is little-endian; `long`
  and `size_t` are 4 bytes as well.
* A call that reads or writes outside an object has no defined result; it is
  the outcome `Res.fault`.
* Memory allocation is assumed to succeed.
-/

namespace ZIPFS

/-! ## Results -/

/-- The outcome of a call: it returns a value, or it leaves the bounds of an
object (undefined behaviour in C). -/
inductive Res (α : Type) where
  | val (a : α) : Res α
  | fault : Res α
  deriving DecidableEq

/-! ## Strings -/

/-- The C string stored at the start of a byte buffer: the bytes before the
first 0. -/
def cstr (buf : List Nat) : List Nat := buf.takeWhile (fun c => c != 0)

/-- The C library's `tolower` in the "C" locale: `'A'..'Z'` go to `'a'..'z'`,
every other byte is unchanged. -/
def tolower (c : Nat) : Nat := if 65 ≤ c ∧ c ≤ 90 then c + 32 else c

/-- Modelled from the spec: `count_same_nocase` of `zipfs_util`, one of the
"general string utilities (case-insensitive prefix comparison ...)" that are
not part of the source unit.  It counts the leading positions at which the two
strings hold the same character ignoring case, stopping at the end of the first
string (the end of the second string is a mismatch: its terminator differs from
every character). -/
def count_same_nocase : List Nat → List Nat → Nat
  | h :: p0, v :: p1 => if tolower h = tolower v then count_same_nocase p0 p1 + 1 else 0
  | _, _ => 0

/-- The C library's `stricmp`: the difference of the first two characters that
differ ignoring case, 0 when the strings are equal ignoring case. -/
def stricmp : List Nat → List Nat → Int
  | [], [] => 0
  | [], v :: _ => 0 - (tolower v : Int)
  | h :: _, [] => (tolower h : Int)
  | h :: a, v :: b =>
    if tolower h = tolower v then stricmp a b else (tolower h : Int) - (tolower v : Int)

/-- Modelled from the spec: `copy_string` of `zipfs_util` ("string
duplication"): a fresh copy of the string. -/
def copy_string (s : List Nat) : List Nat := s

/-- The bytes of an ASCII literal. -/
def str (s : String) : List Nat := s.toList.map Char.toNat

/-! ## The directory tree -/

/-- The fields of `ZIPFSZipFileEntry` (the `mNext` link is the tail of the list
that holds the entry). -/
structure ZIPFSZipFileEntry where
  mName : List Nat
  mFileHeaderAddr : Nat
  mCrc32 : Nat
  mCompression : Nat
  mCompressedSize : Nat
  mUncompressedSize : Nat
  deriving DecidableEq

/-- A node of type `ZIPFSZipFileDir`: its name, the chain `mChildDirs` (linked
through `mNext`, head first) and the chain `mChildFiles`. -/
inductive ZIPFSZipFileDir where
  | mk (mName : List Nat) (mChildDirs : List ZIPFSZipFileDir)
      (mChildFiles : List ZIPFSZipFileEntry) : ZIPFSZipFileDir

/-- The field `mName`. -/
def ZIPFSZipFileDir.mName : ZIPFSZipFileDir → List Nat
  | .mk n _ _ => n

/-- The field `mChildDirs`, as the list of the nodes on the chain. -/
def ZIPFSZipFileDir.mChildDirs : ZIPFSZipFileDir → List ZIPFSZipFileDir
  | .mk _ ds _ => ds

/-- The field `mChildFiles`, as the list of the entries on the chain. -/
def ZIPFSZipFileDir.mChildFiles : ZIPFSZipFileDir → List ZIPFSZipFileEntry
  | .mk _ _ fs => fs

/-- A node as `calloc` returns it: every field zero. -/
def ZIPFSZipFileDir.calloc : ZIPFSZipFileDir := .mk [] [] []

/-- The struct `ZIPFSZipFile`: the archive's filename and the root node
(`none` is the null pointer). -/
structure ZIPFSZipFile where
  mFilename : List Nat
  mRoot : Option ZIPFSZipFileDir

/-- The central-directory file header, `EntryHeader`. -/
structure EntryHeader where
  mSignature : Nat
  mByVersion : Nat
  mVersionNeeded : Nat
  mFlag : Nat
  mCompression : Nat
  mLastModTime : Nat
  mLastModDate : Nat
  mCrc32 : Nat
  mCompressedSize : Nat
  mUncompressedSize : Nat
  mNameLength : Nat
  mExtraFieldLength : Nat
  mCommentLength : Nat
  mDiskNumber : Nat
  mInternalAttributes : Nat
  mExternalAttributes : Nat
  mFileHeaderAddr : Nat
  deriving DecidableEq

/-! ## Construction of the tree -/

/-- The function `ZIPFSZipFileDir_AffirmSubDir ( self, path, len )`: the first
child on the chain with `count_same_nocase ( dir->mName, path ) == len`, or a
new child named by the first `len` bytes of `path`, linked in at the head of the
chain.  The result is the parent after the call and the position of the
returned child on the parent's chain. -/
def ZIPFSZipFileDir_AffirmSubDir (self : ZIPFSZipFileDir) (path : List Nat) (len : Nat) :
    ZIPFSZipFileDir × Nat :=
  match self.mChildDirs.findIdx? (fun dir => count_same_nocase dir.mName path == len) with
  | some k => (self, k)
  | none =>
    (.mk self.mName (.mk (path.take len) [] [] :: self.mChildDirs) self.mChildFiles, 0)

/-- The entry that `ZIPFSZipFile_AddEntry` allocates for the final segment. -/
def newEntry (header : EntryHeader) (path : List Nat) : ZIPFSZipFileEntry where
  mName := copy_string path
  mFileHeaderAddr := header.mFileHeaderAddr
  mCrc32 := header.mCrc32
  mCompression := header.mCompression
  mCompressedSize := header.mCompressedSize
  mUncompressedSize := header.mUncompressedSize

/-- The loop `for ( i = 0; path [ i ]; )` of `ZIPFSZipFile_AddEntry` followed by
the `if ( path [ 0 ])` block, run on the node `dir`; the result is that node
after the call.  `path` is the start of the current segment, `i` the index
reached in it and the last argument the bytes from `path [ i ]` on. -/
def AddEntry_loop (header : EntryHeader) :
    ZIPFSZipFileDir → List Nat → Nat → List Nat → ZIPFSZipFileDir
  | dir, path, _, [] =>
    if path ≠ [] then
      .mk dir.mName dir.mChildDirs (newEntry header path :: dir.mChildFiles)
    else dir
  | dir, path, i, c :: rest =>
    if c = 47 then
      let r := ZIPFSZipFileDir_AffirmSubDir dir path i
      match r.1.mChildDirs.get? r.2 with
      | some child =>
        .mk r.1.mName (r.1.mChildDirs.set r.2 (AddEntry_loop header child rest 0 rest))
          r.1.mChildFiles
      | none => r.1
    else AddEntry_loop header dir path (i + 1) rest

/-- Strip one leading `'/'`: `if ( path [ 0 ] == '/' ) path = &path [ 1 ]`. -/
def gobble : List Nat → List Nat
  | 47 :: rest => rest
  | path => path

/-- The function `ZIPFSZipFile_AddEntry ( self, header, name )`, as the root
node after the call. -/
def ZIPFSZipFile_AddEntry (root : ZIPFSZipFileDir) (header : EntryHeader) (name : List Nat) :
    ZIPFSZipFileDir :=
  let path := gobble (cstr name)
  AddEntry_loop header root path 0 path

/-! ## Lookup -/

/-- The loop `for ( i = 0; path [ i ]; )` of `ZIPFSZipFile_FindDir`, from the
node `dir`: `path` is the start of the current segment, `i` the index reached
in it and the last argument the bytes from `path [ i ]` on.  `none` is the null
pointer. -/
def FindDir_loop : ZIPFSZipFileDir → List Nat → Nat → List Nat → Option ZIPFSZipFileDir
  | dir, _, _, [] => some dir
  | dir, path, i, c :: rest =>
    if c = 47 then
      match dir.mChildDirs.find? (fun cursor => count_same_nocase cursor.mName path == i) with
      | some cursor => FindDir_loop cursor rest 0 rest
      | none => none
    else FindDir_loop dir path (i + 1) rest

/-- The function `ZIPFSZipFile_FindDir ( self, path )`; a `none` path is the
null pointer. -/
def ZIPFSZipFile_FindDir (self : ZIPFSZipFile) (path : Option (List Nat)) :
    Option ZIPFSZipFileDir :=
  match self.mRoot, path with
  | none, _ => none
  | _, none => none
  | some root, some path =>
    let path := gobble (cstr path)
    FindDir_loop root path 0 path

/-- The loop `for ( ; i >= 0; --i )` of `ZIPFSZipFile_FindEntry`, from index
`i`: the string after the last `'/'` at or below `i`.  `i` is a `size_t`, so the
test `i >= 0` always holds: when index 0 holds no `'/'` the decrement wraps to
`SIZE_MAX` and the next test reads `filename [ SIZE_MAX ]`, outside the string
(`none`). -/
def FindEntry_scan (filename : List Nat) : Nat → Option (List Nat)
  | 0 => if filename.getD 0 0 = 47 then some (filename.drop 1) else none
  | i + 1 =>
    if filename.getD (i + 1) 0 = 47 then some (filename.drop (i + 2))
    else FindEntry_scan filename i

/-- The function `ZIPFSZipFile_FindEntry ( self, filename )`.  `val none` is
the null pointer.  For the empty string `strlen ( filename ) - 1` is
`SIZE_MAX`, and `filename [ i ]` is read outside the string. -/
def ZIPFSZipFile_FindEntry (self : ZIPFSZipFile) (filename : List Nat) :
    Res (Option ZIPFSZipFileEntry) :=
  let filename := cstr filename
  match filename.length with
  | 0 => .fault
  | i + 1 =>
    if filename.getD i 0 = 47 then .val none
    else
      match ZIPFSZipFile_FindDir self (some filename) with
      | none => .val none
      | some dir =>
        match FindEntry_scan filename i with
        | none => .fault
        | some name =>
          .val (dir.mChildFiles.find? (fun entry => stricmp entry.mName name == 0))

/-! ## Files -/

/-- An open `FILE*`: the bytes of the file and the position indicator. -/
structure FILE where
  data : List Nat
  pos : Nat
  deriving DecidableEq

/-- The largest `long` (4 bytes). -/
def LONG_MAX : Nat := 2147483647

/-- The call `fseek ( file, offset, SEEK_SET )` with an unsigned `offset`: the
offset is converted to `long`; a value above `LONG_MAX` becomes negative, the
call fails and the position stays.  The result is the file after the call and
the value returned. -/
def fseek_set (file : FILE) (offset : Nat) : FILE × Int :=
  if offset ≤ LONG_MAX then ({ file with pos := offset }, 0) else (file, -1)

/-- The call `fread ( ptr, 1, n, file )` (or `fread ( ptr, n, 1, file )`): the
bytes transferred, at most `n` and as many as the file holds from the position
on, and the file after the call. -/
def fread_bytes (file : FILE) (n : Nat) : List Nat × FILE :=
  let got := (file.data.drop file.pos).take n
  (got, { file with pos := file.pos + got.length })

/-- The unsigned value of a little-endian byte sequence. -/
def le (bytes : List Nat) : Nat := bytes.foldr (fun b acc => b % 256 + 256 * acc) 0

/-- The `n` bytes that represent an unsigned value in memory (little-endian). -/
def bytesOf : Nat → Nat → List Nat
  | 0, _ => []
  | n + 1, v => v % 256 :: bytesOf n (v / 256)

/-- The call `fread ( &field, n, 1, file )` on an `n`-byte unsigned field that
holds `old`: the field after the call and the file after the call.  The bytes
transferred overwrite the first bytes of the field; on a short read the other
bytes of the field keep what they held. -/
def fread_le (n : Nat) (old : Nat) (file : FILE) : Nat × FILE :=
  let r := fread_bytes file n
  (le (r.1 ++ (bytesOf n old).drop r.1.length), r.2)

/-! ## The end-of-central-directory record -/

/-- The constant `SCAN_BUFFER_SIZE`. -/
def SCAN_BUFFER_SIZE : Nat := 256

/-- The constant `ARCHIVE_HEADER_SIGNATURE`. -/
def ARCHIVE_HEADER_SIGNATURE : Nat := 0x06054b50

/-- The constant `ENTRY_HEADER_SIGNATURE`. -/
def ENTRY_HEADER_SIGNATURE : Nat := 0x02014b50

/-- The struct `ArchiveHeader`. -/
structure ArchiveHeader where
  mSignature : Nat
  mDiskNumber : Nat
  mStartDisk : Nat
  mTotalDiskEntries : Nat
  mTotalEntries : Nat
  mCDSize : Nat
  mCDAddr : Nat
  mCommentLength : Nat
  deriving DecidableEq

/-- The load `*( unsigned long* )&buffer [ i ]`: the 4 bytes from index `i`. -/
def load32 (buffer : List Nat) (i : Nat) : Nat := le ((buffer.drop i).take 4)

/-- The loop `for ( i = scansize - 4; i > 0; --i )` of `read_archive_header`
from index `i`: the first index, going down and stopping above 0, at which the
buffer holds the signature. -/
def scan_buffer (buffer : List Nat) : Nat → Option Nat
  | 0 => none
  | i + 1 =>
    if load32 buffer (i + 1) = ARCHIVE_HEADER_SIGNATURE then some (i + 1)
    else scan_buffer buffer i

/-- The loop `while ( cursor )` of `read_archive_header`: the file offset
`cursor + i` of the match, if the scan finds one, and the file as the loop
leaves it.  The first argument bounds the number of iterations; `cursor`
iterations are enough, as `cursor` decreases in each one.  In `int i =
scansize - 4` a `scansize` below 4 gives a negative `i` and no iteration, as
does the truncated subtraction here.  Of `buffer` only the `scansize` bytes
just read are inspected. -/
def scan_loop (filelen : Nat) : Nat → FILE → Nat → Option Nat × FILE
  | 0, file, _ => (none, file)
  | fuel + 1, file, cursor =>
    if cursor = 0 then (none, file)
    else
      let stepsize := SCAN_BUFFER_SIZE - 4
      let cursor := if cursor > stepsize then cursor - stepsize else 0
      let scansize :=
        if cursor + SCAN_BUFFER_SIZE > filelen then filelen - cursor else SCAN_BUFFER_SIZE
      let r := fread_bytes (fseek_set file cursor).1 scansize
      match scan_buffer r.1 (scansize - 4) with
      | some i => (some (cursor + i), r.2)
      | none => scan_loop filelen fuel r.2 cursor

/-- The eight `fread` calls of `read_archive_header` that fill the record from
the position of the file. -/
def read_record (file : FILE) (header : ArchiveHeader) : ArchiveHeader × FILE :=
  let r1 := fread_le 4 header.mSignature file
  let r2 := fread_le 2 header.mDiskNumber r1.2
  let r3 := fread_le 2 header.mStartDisk r2.2
  let r4 := fread_le 2 header.mTotalDiskEntries r3.2
  let r5 := fread_le 2 header.mTotalEntries r4.2
  let r6 := fread_le 4 header.mCDSize r5.2
  let r7 := fread_le 4 header.mCDAddr r6.2
  let r8 := fread_le 2 header.mCommentLength r7.2
  ({ mSignature := r1.1, mDiskNumber := r2.1, mStartDisk := r3.1, mTotalDiskEntries := r4.1,
     mTotalEntries := r5.1, mCDSize := r6.1, mCDAddr := r7.1, mCommentLength := r8.1 }, r8.2)

/-- The function `read_archive_header ( file, header )` on an open file: the
value returned, `*header` after the call and the file after the call.
`fseek ( file, 0, SEEK_END )` and `ftell` give the length of the file. -/
def read_archive_header (file : FILE) (header : ArchiveHeader) : Int × ArchiveHeader × FILE :=
  let filelen := file.data.length
  let s := scan_loop filelen filelen { file with pos := filelen } filelen
  match s.1 with
  | some offset =>
    let r := read_record (fseek_set s.2 offset).1 header
    (0, r.1, r.2)
  | none => (-1, header, s.2)

/-! ## The central directory -/

/-- The function `read_entry_header ( file, header )`: the value returned,
`*header` after the call and the file after the call. -/
def read_entry_header (file : FILE) (header : EntryHeader) : Int × EntryHeader × FILE :=
  let r0 := fread_le 4 header.mSignature file
  if r0.1 ≠ ENTRY_HEADER_SIGNATURE then (-1, { header with mSignature := r0.1 }, r0.2)
  else
    let r1 := fread_le 2 header.mByVersion r0.2
    let r2 := fread_le 2 header.mVersionNeeded r1.2
    let r3 := fread_le 2 header.mFlag r2.2
    let r4 := fread_le 2 header.mCompression r3.2
    let r5 := fread_le 2 header.mLastModTime r4.2
    let r6 := fread_le 2 header.mLastModDate r5.2
    let r7 := fread_le 4 header.mCrc32 r6.2
    let r8 := fread_le 4 header.mCompressedSize r7.2
    let r9 := fread_le 4 header.mUncompressedSize r8.2
    let r10 := fread_le 2 header.mNameLength r9.2
    let r11 := fread_le 2 header.mExtraFieldLength r10.2
    let r12 := fread_le 2 header.mCommentLength r11.2
    let r13 := fread_le 2 header.mDiskNumber r12.2
    let r14 := fread_le 2 header.mInternalAttributes r13.2
    let r15 := fread_le 4 header.mExternalAttributes r14.2
    let r16 := fread_le 4 header.mFileHeaderAddr r15.2
    (0, { mSignature := r0.1, mByVersion := r1.1, mVersionNeeded := r2.1, mFlag := r3.1,
          mCompression := r4.1, mLastModTime := r5.1, mLastModDate := r6.1, mCrc32 := r7.1,
          mCompressedSize := r8.1, mUncompressedSize := r9.1, mNameLength := r10.1,
          mExtraFieldLength := r11.1, mCommentLength := r12.1, mDiskNumber := r13.1,
          mInternalAttributes := r14.1, mExternalAttributes := r15.1,
          mFileHeaderAddr := r16.1 }, r16.2)

/-- The variables of `ZIPFSZipFile_New` that its loop over the entries changes:
the file, `entryHeader`, the block `nameBuffer` with its size, and the tree
under `self->mRoot`. -/
structure NewState where
  file : FILE
  entryHeader : EntryHeader
  nameBuffer : List Nat
  nameBufferSize : Nat
  mRoot : ZIPFSZipFileDir

/-- The call `realloc ( nameBuffer, size )`: the block keeps its bytes; the
bytes added are indeterminate, `junk k` stands for the one at index `k`. -/
def realloc (junk : Nat → Nat) (block : List Nat) (size : Nat) : List Nat :=
  (List.range size).map (fun k => if k < block.length then block.getD k 0 else junk k)

/-- One iteration of the loop `for ( i = 0; i < header.mTotalEntries; ++i )` of
`ZIPFSZipFile_New`.  `val none` is `goto error`.  When `mNameLength + 1`
exceeds the size of the block after the growth step, the store
`nameBuffer [ entryHeader.mNameLength ] = 0` is outside the block. -/
def New_step (junk : Nat → Nat) (st : NewState) : Res (Option NewState) :=
  let r := read_entry_header st.file st.entryHeader
  if r.1 ≠ 0 then .val none
  else
    let entryHeader := r.2.1
    let grow : Bool := entryHeader.mNameLength + 1 > st.nameBufferSize
    let nameBufferSize :=
      if grow then st.nameBufferSize + SCAN_BUFFER_SIZE else st.nameBufferSize
    let nameBuffer := if grow then realloc junk st.nameBuffer nameBufferSize else st.nameBuffer
    if entryHeader.mNameLength + 1 > nameBufferSize then .fault
    else
      let rd := fread_bytes r.2.2 entryHeader.mNameLength
      let nameBuffer := (rd.1 ++ nameBuffer.drop rd.1.length).set entryHeader.mNameLength 0
      .val (some
        { file := rd.2, entryHeader := entryHeader, nameBuffer := nameBuffer,
          nameBufferSize := nameBufferSize,
          mRoot := ZIPFSZipFile_AddEntry st.mRoot entryHeader nameBuffer })

/-- The first `n` iterations of the loop over the entries. -/
def New_loop (junk : Nat → Nat) : Nat → NewState → Res (Option NewState)
  | 0, st => .val (some st)
  | n + 1, st =>
    match New_step junk st with
    | .val (some st) => New_loop junk n st
    | .val none => .val none
    | .fault => .fault

/-- What the uninitialised objects of `ZIPFSZipFile_New` hold: the locals
`header` and `entryHeader`, and the bytes that `realloc` adds. -/
structure Indeterminate where
  header : ArchiveHeader
  entryHeader : EntryHeader
  junk : Nat → Nat

/-- The state in which `ZIPFSZipFile_New` enters its loop: the file positioned
by `fseek ( file, header.mCDAddr, SEEK_SET )`, no name buffer, the root as
`calloc` returns it. -/
def New_enter (file : FILE) (header : ArchiveHeader) (ind : Indeterminate) : NewState where
  file := (fseek_set file header.mCDAddr).1
  entryHeader := ind.entryHeader
  nameBuffer := []
  nameBufferSize := 0
  mRoot := .calloc

/-- The function `ZIPFSZipFile_New ( filename )`.  `fs` is the file system:
`fs filename` is the content of the file that `fopen ( filename, "rb" )` opens,
`none` when the call fails.  `val none` is the null pointer. -/
def ZIPFSZipFile_New (fs : List Nat → Option (List Nat)) (ind : Indeterminate)
    (filename : List Nat) : Res (Option ZIPFSZipFile) :=
  match fs (cstr filename) with
  | none => .val none
  | some data =>
    let r := read_archive_header { data := data, pos := 0 } ind.header
    if r.1 ≠ 0 then .val none
    else
      let header := r.2.1
      if header.mDiskNumber ≠ 0 then .val none
      else if header.mStartDisk ≠ 0 then .val none
      else if header.mTotalDiskEntries ≠ header.mTotalEntries then .val none
      else
        match New_loop ind.junk header.mTotalEntries (New_enter r.2.2 header ind) with
        | .val (some st) =>
          .val (some { mFilename := copy_string (cstr filename), mRoot := some st.mRoot })
        | .val none => .val none
        | .fault => .fault

/-! ## The decompressor

zlib is not part of the source unit.  Its interface is a parameter of the
embedding: the state that `inflateInit2` sets up and the function `inflate`.
What the theorems need of it they assume. -/

/-- The constant `Z_OK` of zlib. -/
def Z_OK : Int := 0

/-- The constant `Z_STREAM_END` of zlib. -/
def Z_STREAM_END : Int := 1

/-- The constant `Z_STREAM_ERROR` of zlib. -/
def Z_STREAM_ERROR : Int := -2

/-- The constant `Z_DATA_ERROR` of zlib. -/
def Z_DATA_ERROR : Int := -3

/-- The constant `Z_BUF_ERROR` of zlib. -/
def Z_BUF_ERROR : Int := -5

/-- What one call `inflate ( stream, Z_SYNC_FLUSH )` does: the internal state
after the call, the number of bytes it takes from `next_in`, the bytes it
stores at `next_out`, and the value it returns. -/
structure InflateResult (σ : Type) where
  state : σ
  consumed : Nat
  output : List Nat
  result : Int

/-- The decompressor: `inflateInit2` is the internal state that
`inflateInit2 ( strm, -MAX_WBITS )` sets up (`none` when the call does not
return `Z_OK`); `inflate state input avail_out` is a call of `inflate` in
that state with the bytes `input` at `next_in` and room for `avail_out` bytes
at `next_out`. -/
structure Zlib (σ : Type) where
  inflateInit2 : Option σ
  inflate : σ → List Nat → Nat → InflateResult σ

/-- The fields of a `z_stream` that the source reads or writes: the internal
state (`none` in a zeroed struct), the `avail_in` bytes at `next_in`, and
`avail_out`.  The field `total_out` is used only for the difference across one
call of `inflate`, which is the number of bytes that call stores. -/
structure z_stream (σ : Type) where
  state : Option σ
  next_in : List Nat
  avail_out : Nat

/-- A zeroed `z_stream`. -/
def z_stream.zero {σ : Type} : z_stream σ := { state := none, next_in := [], avail_out := 0 }

/-- The call `inflate ( stream, Z_SYNC_FLUSH )` on a `z_stream`: the bytes
stored, the value returned and the stream after the call.  On a stream without
internal state zlib returns `Z_STREAM_ERROR`. -/
def inflate_call {σ : Type} (z : Zlib σ) (stream : z_stream σ) : List Nat × Int × z_stream σ :=
  match stream.state with
  | none => ([], Z_STREAM_ERROR, stream)
  | some s =>
    let r := z.inflate s stream.next_in stream.avail_out
    (r.output, r.result,
      { state := some r.state, next_in := stream.next_in.drop r.consumed,
        avail_out := stream.avail_out - r.output.length })

/-! ## The entry stream -/

/-- The constant `FILE_HEADER_SIGNATURE`. -/
def FILE_HEADER_SIGNATURE : Nat := 0x04034b50

/-- The number of values of a `size_t` (4 bytes). -/
def SIZE : Nat := 4294967296

/-- The struct `FileHeader`. -/
structure FileHeader where
  mSignature : Nat
  mVersionNeeded : Nat
  mFlag : Nat
  mCompression : Nat
  mLastModTime : Nat
  mLastModDate : Nat
  mCrc32 : Nat
  mCompressedSize : Nat
  mUncompressedSize : Nat
  mNameLength : Nat
  mExtraFieldLength : Nat
  deriving DecidableEq

/-- The function `read_file_header ( file, header )`: the value returned,
`*header` after the call and the file after the call. -/
def read_file_header (file : FILE) (header : FileHeader) : Int × FileHeader × FILE :=
  let r0 := fread_le 4 header.mSignature file
  if r0.1 ≠ FILE_HEADER_SIGNATURE then (-1, { header with mSignature := r0.1 }, r0.2)
  else
    let r1 := fread_le 2 header.mVersionNeeded r0.2
    let r2 := fread_le 2 header.mFlag r1.2
    let r3 := fread_le 2 header.mCompression r2.2
    let r4 := fread_le 2 header.mLastModTime r3.2
    let r5 := fread_le 2 header.mLastModDate r4.2
    let r6 := fread_le 4 header.mCrc32 r5.2
    let r7 := fread_le 4 header.mCompressedSize r6.2
    let r8 := fread_le 4 header.mUncompressedSize r7.2
    let r9 := fread_le 2 header.mNameLength r8.2
    let r10 := fread_le 2 header.mExtraFieldLength r9.2
    (0, { mSignature := r0.1, mVersionNeeded := r1.1, mFlag := r2.1, mCompression := r3.1,
          mLastModTime := r4.1, mLastModDate := r5.1, mCrc32 := r6.1, mCompressedSize := r7.1,
          mUncompressedSize := r8.1, mNameLength := r9.1, mExtraFieldLength := r10.1 }, r10.2)

/-- The call `fseek ( file, offset, SEEK_SET )` with a `long` offset: a
negative offset makes the call fail. -/
def fseek_long (file : FILE) (offset : Int) : FILE × Int :=
  if 0 ≤ offset then ({ file with pos := offset.toNat }, 0) else (file, -1)

/-- The call `fseek ( file, offset, SEEK_CUR )` with a non-negative offset: the
call fails when the new position is not a `long`. -/
def fseek_cur (file : FILE) (offset : Nat) : FILE × Int :=
  if file.pos + offset ≤ LONG_MAX then ({ file with pos := file.pos + offset }, 0)
  else (file, -1)

/-- The fields of `ZIPFSZipStream`.  Of the block `mBuffer` only the bytes not
yet taken by `inflate` matter; they are the bytes at `mStream.next_in`. -/
structure ZIPFSZipStream (σ : Type) where
  mFile : FILE
  mEntry : ZIPFSZipFileEntry
  mBufferSize : Nat
  mBaseAddr : Nat
  mStream : z_stream σ
  mCompressedCursor : Nat
  mUncompressedCursor : Nat

/-- The function `ZIPFSZipStream_Open ( archive, entryname )`.
`ZIP_STREAM_BUFFER_MAX` is the constant of that name, `fileHeader` what the
uninitialised local of that name holds.  `val none` is the null pointer. -/
def ZIPFSZipStream_Open {σ : Type} (z : Zlib σ) (ZIP_STREAM_BUFFER_MAX : Nat)
    (fs : List Nat → Option (List Nat)) (fileHeader : FileHeader)
    (archive : ZIPFSZipFile) (entryname : List Nat) : Res (Option (ZIPFSZipStream σ)) :=
  match ZIPFSZipFile_FindEntry archive entryname with
  | .fault => .fault
  | .val none => .val none
  | .val (some entry) =>
    match fs (cstr archive.mFilename) with
    | none => .val none
    | some data =>
      let mBufferSize :=
        if entry.mCompressedSize < ZIP_STREAM_BUFFER_MAX then entry.mCompressedSize
        else ZIP_STREAM_BUFFER_MAX
      let s1 := fseek_set { data := data, pos := 0 } entry.mFileHeaderAddr
      if s1.2 ≠ 0 then .val none
      else
        let r := read_file_header s1.1 fileHeader
        if r.1 ≠ 0 then .val none
        else if r.2.1.mCrc32 ≠ entry.mCrc32 then .val none
        else
          let s2 := fseek_cur r.2.2 (r.2.1.mNameLength + r.2.1.mExtraFieldLength)
          if s2.2 ≠ 0 then .val none
          else if entry.mCompression ≠ 0 then
            match z.inflateInit2 with
            | none => .val none
            | some st =>
              .val (some
                { mFile := s2.1, mEntry := entry, mBufferSize := mBufferSize,
                  mBaseAddr := s2.1.pos,
                  mStream := { state := some st, next_in := [], avail_out := 0 },
                  mCompressedCursor := 0, mUncompressedCursor := 0 })
          else
            .val (some
              { mFile := s2.1, mEntry := entry, mBufferSize := mBufferSize,
                mBaseAddr := s2.1.pos, mStream := z_stream.zero,
                mCompressedCursor := 0, mUncompressedCursor := 0 })

/-- The difference of two `size_t` values (the sums of `size_t` values are
reduced modulo `SIZE` where they are formed). -/
def size_sub (a b : Nat) : Nat := (a % SIZE + SIZE - b % SIZE) % SIZE

/-- The number of bytes that the loop of `ZIPFSZipStream_Read` asks `fread`
for when it refills the buffer: `cacheSize` after the clamp to
`self->mBufferSize`. -/
def Read_cacheSize {σ : Type} (self : ZIPFSZipStream σ) : Nat :=
  let cacheSize := size_sub self.mEntry.mCompressedSize self.mCompressedCursor
  if cacheSize > self.mBufferSize then self.mBufferSize else cacheSize

/-- The block `if ( stream->avail_in == 0 )` of the loop of
`ZIPFSZipStream_Read`: the stream after the block, `none` when the block leaves
the loop (`fread` transfers nothing). -/
def Read_refill {σ : Type} (self : ZIPFSZipStream σ) : Option (ZIPFSZipStream σ) :=
  if self.mStream.next_in.length = 0 then
    if size_sub self.mEntry.mCompressedSize self.mCompressedCursor > 0 then
      let rd := fread_bytes self.mFile (Read_cacheSize self)
      if rd.1.length = 0 then none
      else
        some { self with
          mFile := rd.2
          mCompressedCursor := (self.mCompressedCursor + rd.1.length) % SIZE
          mStream := { self.mStream with next_in := rd.1 } }
    else some self
  else some self

/-- The loop `while ( totalRead < size )` of `ZIPFSZipStream_Read`: the value
of `totalRead` and the bytes stored in `buffer` when the loop ends, and the
stream then.  The first argument bounds the number of iterations; `none` is a
loop that runs longer. -/
def Read_loop {σ : Type} (z : Zlib σ) :
    Nat → ZIPFSZipStream σ → Nat → Nat → List Nat → Option (Nat × List Nat × ZIPFSZipStream σ)
  | 0, _, _, _, _ => none
  | fuel + 1, self, size, totalRead, out =>
    if totalRead < size then
      match Read_refill self with
      | none => some (totalRead, out, self)
      | some self =>
        let r := inflate_call z self.mStream
        let self := { self with mStream := r.2.2 }
        if r.2.1 ≠ Z_OK then some ((totalRead + r.1.length) % SIZE, out ++ r.1, self)
        else Read_loop z fuel self size ((totalRead + r.1.length) % SIZE) (out ++ r.1)
    else some (totalRead, out, self)

/-- The function `ZIPFSZipStream_Read ( self, buffer, size )`: the value
returned, the bytes stored in `buffer` and the stream after the call.  For a
stored entry `fread ( buffer, size, 1, file )` returns the number of items of
`size` bytes that it reads in full.  The first argument bounds the iterations
of the loop. -/
def ZIPFSZipStream_Read {σ : Type} (z : Zlib σ) (fuel : Nat) (self : ZIPFSZipStream σ)
    (size : Nat) : Option (Nat × List Nat × ZIPFSZipStream σ) :=
  let remaining := size_sub self.mEntry.mUncompressedSize self.mUncompressedCursor
  if self.mEntry.mCompression = 0 then
    let rd := fread_bytes self.mFile size
    some (if size ≠ 0 ∧ rd.1.length = size then 1 else 0, rd.1, { self with mFile := rd.2 })
  else if size = 0 then some (0, [], self)
  else if remaining = 0 then some (0, [], self)
  else
    let size := if remaining < size then remaining else size
    let self := { self with mStream := { self.mStream with avail_out := size } }
    match Read_loop z fuel self size 0 [] with
    | none => none
    | some (totalRead, out, self) =>
      some (totalRead, out,
        if totalRead > 0 then
          { self with mUncompressedCursor := (self.mUncompressedCursor + totalRead) % SIZE }
        else self)

/-- The constant `SEEK_SET`. -/
def SEEK_SET : Int := 0

/-- The constant `SEEK_CUR`. -/
def SEEK_CUR : Int := 1

/-- The constant `SEEK_END`. -/
def SEEK_END : Int := 2

/-- The conversion of a `long` to `size_t`. -/
def to_size_t (v : Int) : Nat := (v % (SIZE : Int)).toNat

/-- The loop `while ( self->mUncompressedCursor < absOffset )` of
`ZIPFSZipStream_Seek`: the value that the function returns and the stream
then.  The first argument bounds the iterations of this loop and of the loop of
each read. -/
def Seek_loop {σ : Type} (z : Zlib σ) (offset : Int) (absOffset : Nat) :
    Nat → ZIPFSZipStream σ → Option (Int × ZIPFSZipStream σ)
  | 0, _ => none
  | fuel + 1, self =>
    if self.mUncompressedCursor < absOffset then
      let size := size_sub (to_size_t offset) self.mUncompressedCursor
      let size := if size > SCAN_BUFFER_SIZE then SCAN_BUFFER_SIZE else size
      match ZIPFSZipStream_Read z (fuel + 1) self size with
      | none => none
      | some (read, _, self) => if read ≠ size then some (-1, self) else Seek_loop z offset absOffset fuel self
    else some (0, self)

/-- The value of `absOffset` after the `switch ( origin )` of
`ZIPFSZipStream_Seek`. -/
def Seek_absOffset {σ : Type} (self : ZIPFSZipStream σ) (offset : Int) (origin : Int) : Nat :=
  if origin = SEEK_CUR then (self.mUncompressedCursor + to_size_t offset) % SIZE
  else if origin = SEEK_END then self.mEntry.mUncompressedSize
  else if origin = SEEK_SET then to_size_t offset
  else 0

/-- The function `ZIPFSZipStream_Seek ( self, offset, origin )`: the value
returned and the stream after the call.  The first argument bounds the
iterations of the loops. -/
def ZIPFSZipStream_Seek {σ : Type} (z : Zlib σ) (fuel : Nat) (self : ZIPFSZipStream σ)
    (offset : Int) (origin : Int) : Option (Int × ZIPFSZipStream σ) :=
  let absOffset : Nat := Seek_absOffset self offset origin
  if absOffset > self.mEntry.mUncompressedSize then some (-1, self)
  else if self.mEntry.mCompression = 0 then
    let s := fseek_long self.mFile offset
    some (s.2, { self with mFile := s.1 })
  else if absOffset < self.mUncompressedCursor then
    let s := fseek_set self.mFile self.mBaseAddr
    if s.2 ≠ 0 then some (-1, self)
    else
      match z.inflateInit2 with
      | none => some (-1, { self with mFile := s.1 })
      | some st =>
        Seek_loop z offset absOffset fuel
          { self with
            mFile := s.1
            mStream := { state := some st, next_in := [], avail_out := 0 }
            mCompressedCursor := 0
            mUncompressedCursor := 0 }
  else Seek_loop z offset absOffset fuel self

/-- The function `ZIPFSZipStream_Tell ( self )`. -/
def ZIPFSZipStream_Tell {σ : Type} (self : ZIPFSZipStream σ) : Nat := self.mUncompressedCursor

/-! ## Notions used to state the properties -/

/-- The signature of the end-of-central-directory record stands at offset `o`
of the file: the 4 bytes from `o` on are inside the file and hold
`0x06054b50`, little-endian. -/
def signatureAt (data : List Nat) (o : Nat) : Prop :=
  o + 4 ≤ data.length ∧ load32 data o = ARCHIVE_HEADER_SIGNATURE

instance (data : List Nat) (o : Nat) : Decidable (signatureAt data o) := by
  unfold signatureAt
  exact inferInstance

/-- The path made of the directory segments `segs`, each followed by `'/'`, and
of the final part `file`. -/
def joinPath (segs : List (List Nat)) (file : List Nat) : List Nat :=
  segs.foldr (fun s acc => s ++ 47 :: acc) file

/-- The relation `IsNodeOf e d`: `e` is a node of the tree under `d`, that is
`d` itself or a node reached from it along `mChildDirs` chains. -/
inductive IsNodeOf : ZIPFSZipFileDir → ZIPFSZipFileDir → Prop where
  | root (d : ZIPFSZipFileDir) : IsNodeOf d d
  | child (d c e : ZIPFSZipFileDir) : c ∈ d.mChildDirs → IsNodeOf e c → IsNodeOf e d

/-- The decompressor stores no more bytes than the room `avail_out` it is
given. -/
def OutputBounded {σ : Type} (z : Zlib σ) : Prop :=
  ∀ s input avail, (z.inflate s input avail).output.length ≤ avail

/-- The decompressor takes no more bytes than the `avail_in` it is given, and
returns `Z_OK` only when it took input or produced output. -/
def Progresses {σ : Type} (z : Zlib σ) : Prop :=
  ∀ s input avail, (z.inflate s input avail).consumed ≤ input.length ∧
    ((z.inflate s input avail).result = Z_OK →
      0 < (z.inflate s input avail).consumed ∨ 0 < (z.inflate s input avail).output.length)

/-- The cursor invariant of a stream: neither cursor is beyond the size it
counts towards. -/
def CursorsInRange {σ : Type} (self : ZIPFSZipStream σ) : Prop :=
  self.mCompressedCursor ≤ self.mEntry.mCompressedSize ∧
  self.mUncompressedCursor ≤ self.mEntry.mUncompressedSize

/-- The sizes of the entry are values of 4-byte fields. -/
def SizesFit {σ : Type} (self : ZIPFSZipStream σ) : Prop :=
  self.mEntry.mCompressedSize < SIZE ∧ self.mEntry.mUncompressedSize < SIZE

instance {σ : Type} (self : ZIPFSZipStream σ) : Decidable (CursorsInRange self) := by
  unfold CursorsInRange
  exact inferInstance

instance {σ : Type} (self : ZIPFSZipStream σ) : Decidable (SizesFit self) := by
  unfold SizesFit
  exact inferInstance

/-- A local file header for a stored entry, followed by the name and the
data. -/
def localRecord (name content : List Nat) (crc : Nat) : List Nat :=
  bytesOf 4 0x04034b50 ++ bytesOf 2 20 ++ bytesOf 2 0 ++ bytesOf 2 0 ++ bytesOf 2 0 ++
  bytesOf 2 0 ++ bytesOf 4 crc ++ bytesOf 4 content.length ++ bytesOf 4 content.length ++
  bytesOf 2 name.length ++ bytesOf 2 0 ++ name ++ content

/-- A central-directory file header for a stored entry, followed by the name
and the extra field (no comment). -/
def entryRecord (name extra : List Nat) (crc size offset : Nat) : List Nat :=
  bytesOf 4 ENTRY_HEADER_SIGNATURE ++ bytesOf 2 20 ++ bytesOf 2 20 ++ bytesOf 2 0 ++
  bytesOf 2 0 ++ bytesOf 2 0 ++ bytesOf 2 0 ++ bytesOf 4 crc ++ bytesOf 4 size ++
  bytesOf 4 size ++ bytesOf 2 name.length ++ bytesOf 2 extra.length ++ bytesOf 2 0 ++
  bytesOf 2 0 ++ bytesOf 2 0 ++ bytesOf 4 0 ++ bytesOf 4 offset ++ name ++ extra

/-- An end-of-central-directory record, followed by the archive comment. -/
def endRecord (disk entries cdSize cdAddr : Nat) (comment : List Nat) : List Nat :=
  bytesOf 4 ARCHIVE_HEADER_SIGNATURE ++ bytesOf 2 disk ++ bytesOf 2 0 ++ bytesOf 2 entries ++
  bytesOf 2 entries ++ bytesOf 4 cdSize ++ bytesOf 4 cdAddr ++ bytesOf 2 comment.length ++
  comment

/-- An archive with the stored files `sub/b.txt` ("hello") and `subdir/a.txt`
("world"), in this order. -/
def archive_shadow : List Nat :=
  localRecord (str "sub/b.txt") (str "hello") 907060870 ++
  localRecord (str "subdir/a.txt") (str "world") 980881731 ++
  entryRecord (str "sub/b.txt") [] 907060870 5 0 ++
  entryRecord (str "subdir/a.txt") [] 980881731 5 44 ++
  endRecord 0 2 113 91 []

/-- The archive `archive_shadow` after the first signature byte of its second
central-directory file header is overwritten. -/
def archive_corrupt : List Nat :=
  localRecord (str "sub/b.txt") (str "hello") 907060870 ++
  localRecord (str "subdir/a.txt") (str "world") 980881731 ++
  entryRecord (str "sub/b.txt") [] 907060870 5 0 ++
  (entryRecord (str "subdir/a.txt") [] 980881731 5 44).set 0 81 ++
  endRecord 0 2 113 91 []

/-- The archive `archive_shadow` with disk number 1 in its end record. -/
def archive_disk : List Nat :=
  localRecord (str "sub/b.txt") (str "hello") 907060870 ++
  localRecord (str "subdir/a.txt") (str "world") 980881731 ++
  entryRecord (str "sub/b.txt") [] 907060870 5 0 ++
  entryRecord (str "subdir/a.txt") [] 980881731 5 44 ++
  endRecord 1 2 113 91 []

/-- The archive with no entry: the end-of-central-directory record alone. -/
def archive_empty : List Nat := endRecord 0 0 0 0 []

/-- An archive with the stored file `a.txt` and a comment of 232 bytes: the
file is 345 bytes long and the signature of its end record, at offset 91,
straddles the start (offset 93) of the first window that the scan reads. -/
def archive_comment : List Nat :=
  localRecord (str "a.txt") (str "hello") 907060870 ++
  entryRecord (str "a.txt") [] 907060870 5 0 ++
  endRecord 0 1 51 40 (List.replicate 232 120)

/-- An archive with the stored files `a.txt` and `b.txt`; the central-directory
file header of `a.txt` carries an extra field of 4 bytes (header id `0xcafe`,
no data). -/
def archive_extra : List Nat :=
  localRecord (str "a.txt") (str "hello") 907060870 ++
  localRecord (str "b.txt") (str "world") 980881731 ++
  entryRecord (str "a.txt") [254, 202, 0, 0] 907060870 5 0 ++
  entryRecord (str "b.txt") [] 980881731 5 40 ++
  endRecord 0 2 106 80 []

/-- An archive with the directory entries `sub/inner/` and `subdir/`, in this
order. -/
def archive_dirs : List Nat :=
  localRecord (str "sub/inner/") [] 0 ++
  localRecord (str "subdir/") [] 0 ++
  entryRecord (str "sub/inner/") [] 0 0 0 ++
  entryRecord (str "subdir/") [] 0 0 40 ++
  endRecord 0 2 109 77 []

/-- A file system that holds the archives above. -/
def disk (name : List Nat) : Option (List Nat) :=
  if name = str "shadow.zip" then some archive_shadow
  else if name = str "corrupt.zip" then some archive_corrupt
  else if name = str "disk.zip" then some archive_disk
  else if name = str "empty.zip" then some archive_empty
  else if name = str "comment.zip" then some archive_comment
  else if name = str "extra.zip" then some archive_extra
  else if name = str "dirs.zip" then some archive_dirs
  else none

/-- Uninitialised objects that hold zeros. -/
def zeros : Indeterminate where
  header := ⟨0, 0, 0, 0, 0, 0, 0, 0⟩
  entryHeader := ⟨0, 0, 0, 0, 0, 0, 0, 0, 0, 0, 0, 0, 0, 0, 0, 0, 0⟩
  junk := fun _ => 0

/-- A central-directory header, as parsed, of a stored entry. -/
def sampleHeader (crc size offset : Nat) : EntryHeader where
  mSignature := ENTRY_HEADER_SIGNATURE
  mByVersion := 20
  mVersionNeeded := 20
  mFlag := 0
  mCompression := 0
  mLastModTime := 0
  mLastModDate := 0
  mCrc32 := crc
  mCompressedSize := size
  mUncompressedSize := size
  mNameLength := 0
  mExtraFieldLength := 0
  mCommentLength := 0
  mDiskNumber := 0
  mInternalAttributes := 0
  mExternalAttributes := 0
  mFileHeaderAddr := offset

/-- The tree after the entry `subdir/a.txt` is added to an empty root. -/
def tree_subdir : ZIPFSZipFileDir :=
  ZIPFSZipFile_AddEntry .calloc (sampleHeader 907060870 5 0) (str "subdir/a.txt")

/-- The tree after the entry `Dir/SubDir/File.txt` is added to an empty
root. -/
def tree_mixed : ZIPFSZipFileDir :=
  ZIPFSZipFile_AddEntry .calloc (sampleHeader 907060870 5 0) (str "Dir/SubDir/File.txt")

/-- The tree after the entries `sub/inner/` and `dir/b.txt` are added to an
empty root. -/
def tree_inner : ZIPFSZipFileDir :=
  ZIPFSZipFile_AddEntry
    (ZIPFSZipFile_AddEntry .calloc (sampleHeader 0 0 0) (str "sub/inner/"))
    (sampleHeader 907060870 5 40) (str "dir/b.txt")

/-! ## A decoder of stored blocks

A concrete decompressor for the examples: it decodes the DEFLATE streams that
are made of stored blocks (block type 0: a header byte, the length and its
complement, then the bytes themselves). -/

/-- The states of the decoder: inside a block header (with the header bytes
read so far), inside the bytes of a block (with the number left and whether the
block is the last), after the last block, after an invalid header. -/
inductive StoredState where
  | head (bytes : List Nat) : StoredState
  | copy (left : Nat) (final : Bool) : StoredState
  | done : StoredState
  | bad : StoredState
  deriving DecidableEq

/-- The state after the 5 bytes of a block header. -/
def stored_header (bytes : List Nat) : StoredState :=
  let final : Bool := bytes.getD 0 0 % 2 = 1
  let len := bytes.getD 1 0 + 256 * bytes.getD 2 0
  let nlen := bytes.getD 3 0 + 256 * bytes.getD 4 0
  if (bytes.getD 0 0 / 2) % 4 ≠ 0 then .bad
  else if len + nlen ≠ 65535 then .bad
  else if len = 0 then (if final then .done else .head [])
  else .copy len final

/-- The decoder run on the input until the input ends, the output is full or
the stream ends: the state then, the number of input bytes taken and the bytes
produced. -/
def stored_run : List Nat → StoredState → Nat → StoredState × Nat × List Nat
  | [], s, _ => (s, 0, [])
  | b :: input, .head bytes, avail =>
    let next := if (bytes ++ [b]).length < 5 then .head (bytes ++ [b])
      else stored_header (bytes ++ [b])
    let r := stored_run input next avail
    (r.1, r.2.1 + 1, r.2.2)
  | b :: input, .copy left final, avail =>
    if avail = 0 then (.copy left final, 0, [])
    else
      let next := if left ≤ 1 then (if final then .done else .head []) else .copy (left - 1) final
      let r := stored_run input next (avail - 1)
      (r.1, r.2.1 + 1, b :: r.2.2)
  | _ :: _, .done, _ => (.done, 0, [])
  | _ :: _, .bad, _ => (.bad, 0, [])

/-- The decoder of stored blocks as a decompressor: `inflate` returns
`Z_STREAM_END` after the last block, `Z_DATA_ERROR` after an invalid header,
`Z_OK` when it took input or produced output, and `Z_BUF_ERROR` otherwise. -/
def storedZlib : Zlib StoredState where
  inflateInit2 := some (.head [])
  inflate := fun s input avail =>
    let r := stored_run input s avail
    { state := r.1, consumed := r.2.1, output := r.2.2,
      result :=
        if r.1 = .done then Z_STREAM_END
        else if r.1 = .bad then Z_DATA_ERROR
        else if r.2.1 > 0 ∨ r.2.2 ≠ [] then Z_OK
        else Z_BUF_ERROR }

/-- A local file header for a deflated entry, followed by the name and the
compressed data. -/
def localRecordDeflated (name data : List Nat) (crc usize : Nat) : List Nat :=
  bytesOf 4 0x04034b50 ++ bytesOf 2 20 ++ bytesOf 2 0 ++ bytesOf 2 8 ++ bytesOf 2 0 ++
  bytesOf 2 0 ++ bytesOf 4 crc ++ bytesOf 4 data.length ++ bytesOf 4 usize ++
  bytesOf 2 name.length ++ bytesOf 2 0 ++ name ++ data

/-- A central-directory file header for a deflated entry, followed by the
name. -/
def entryRecordDeflated (name : List Nat) (crc csize usize offset : Nat) : List Nat :=
  bytesOf 4 ENTRY_HEADER_SIGNATURE ++ bytesOf 2 20 ++ bytesOf 2 20 ++ bytesOf 2 0 ++
  bytesOf 2 8 ++ bytesOf 2 0 ++ bytesOf 2 0 ++ bytesOf 4 crc ++ bytesOf 4 csize ++
  bytesOf 4 usize ++ bytesOf 2 name.length ++ bytesOf 2 0 ++ bytesOf 2 0 ++
  bytesOf 2 0 ++ bytesOf 2 0 ++ bytesOf 4 0 ++ bytesOf 4 offset ++ name

/-- An archive with the stored files `dir/b.txt` ("hello") and `lib/a.txt`
("world"), in this order. -/
def archive_pair : List Nat :=
  localRecord (str "dir/b.txt") (str "hello") 907060870 ++
  localRecord (str "lib/a.txt") (str "world") 980881731 ++
  entryRecord (str "dir/b.txt") [] 907060870 5 0 ++
  entryRecord (str "lib/a.txt") [] 980881731 5 44 ++
  endRecord 0 2 110 88 []

/-- The 300 bytes `0, 1, ..., 250, 0, 1, ...`. -/
def content_big : List Nat := (List.range 300).map (fun i => i % 251)

/-- The bytes `content_big` as a DEFLATE stream: one stored block, the last. -/
def deflated_big : List Nat := [1, 44, 1, 211, 254] ++ content_big

/-- An archive with the deflated file `dir/big.bin`, 300 bytes long. -/
def archive_big : List Nat :=
  localRecordDeflated (str "dir/big.bin") deflated_big 3900669668 300 ++
  entryRecordDeflated (str "dir/big.bin") 3900669668 305 300 0 ++
  endRecord 0 1 57 346 []

/-- A name of 256 bytes: `d/` and 254 times `a`. -/
def name_long : List Nat := str "d/" ++ List.replicate 254 97

/-- An archive with one stored file, whose name is 256 bytes long. -/
def archive_long : List Nat :=
  localRecord name_long (str "hello") 907060870 ++
  entryRecord name_long [] 907060870 5 0 ++
  endRecord 0 1 302 291 []

/-- A file system that holds the archives of the stream examples. -/
def disk_streams (name : List Nat) : Option (List Nat) :=
  if name = str "pair.zip" then some archive_pair
  else if name = str "big.zip" then some archive_big
  else if name = str "long.zip" then some archive_long
  else if name = str "comment.zip" then some archive_comment
  else none

/-- A local header object that holds zeros. -/
def zeroHeader : FileHeader := ⟨0, 0, 0, 0, 0, 0, 0, 0, 0, 0, 0⟩

/-- The index that `ZIPFSZipFile_New` builds from `archive_pair`. -/
def index_pair : ZIPFSZipFile :=
  ⟨str "pair.zip", some (.mk []
    [.mk (str "lib") [] [⟨str "a.txt", 44, 980881731, 0, 5, 5⟩],
     .mk (str "dir") [] [⟨str "b.txt", 0, 907060870, 0, 5, 5⟩]] [])⟩

/-- The index that `ZIPFSZipFile_New` builds from `archive_big`. -/
def index_big : ZIPFSZipFile :=
  ⟨str "big.zip", some (.mk []
    [.mk (str "dir") [] [⟨str "big.bin", 0, 3900669668, 8, 305, 300⟩]] [])⟩

/-- The stream that `ZIPFSZipStream_Open` returns for the stored entry
`dir/b.txt` of `archive_pair`: the data of the entry start at offset 39. -/
def stream_pair : ZIPFSZipStream StoredState where
  mFile := ⟨archive_pair, 39⟩
  mEntry := ⟨str "b.txt", 0, 907060870, 0, 5, 5⟩
  mBufferSize := 5
  mBaseAddr := 39
  mStream := z_stream.zero
  mCompressedCursor := 0
  mUncompressedCursor := 0

/-- The stream that `ZIPFSZipStream_Open` returns for the deflated entry
`dir/big.bin` of `archive_big`: the data of the entry start at offset 41. -/
def stream_big : ZIPFSZipStream StoredState where
  mFile := ⟨archive_big, 41⟩
  mEntry := ⟨str "big.bin", 0, 3900669668, 8, 305, 300⟩
  mBufferSize := 305
  mBaseAddr := 41
  mStream := { state := some (.head []), next_in := [], avail_out := 0 }
  mCompressedCursor := 0
  mUncompressedCursor := 0

/-- The index that `ZIPFSZipFile_New` builds from `archive_comment`: the file
`a.txt` in the archive root. -/
def index_comment : ZIPFSZipFile :=
  ⟨str "comment.zip", some (.mk [] [] [⟨str "a.txt", 0, 907060870, 0, 5, 5⟩])⟩

set_option maxRecDepth 100000


/-! ## Case folding -/


theorem tolower_tolower (c : Nat) : tolower (tolower c) = tolower c := by
  unfold tolower; split_ifs <;> omega

theorem tolower_eq_zero (c : Nat) : tolower c = 0 ↔ c = 0 := by
  unfold tolower; split <;> omega

theorem tolower_eq_slash (c : Nat) : tolower c = 47 ↔ c = 47 := by
  unfold tolower; split <;> omega

theorem cstr_map_tolower (p : List Nat) : cstr (p.map tolower) = (cstr p).map tolower := by
  induction p with
  | nil => rfl
  | cons c p ih =>
    unfold cstr at ih ⊢
    by_cases hc : c = 0
    · subst hc; simp [tolower]
    · have : tolower c ≠ 0 := fun h => hc ((tolower_eq_zero c).1 h)
      simp [List.takeWhile_cons, hc, this, ih]

theorem gobble_map_tolower (p : List Nat) : gobble (p.map tolower) = (gobble p).map tolower := by
  cases p with
  | nil => rfl
  | cons c p =>
    by_cases hc : c = 47
    · subst hc; rfl
    · have h1 : tolower c ≠ 47 := fun h => hc ((tolower_eq_slash c).1 h)
      have e1 : gobble (c :: p) = c :: p := by
        unfold gobble; split
        · rename_i heq; cases heq; exact absurd rfl hc
        · rfl
      have e2 : gobble (tolower c :: p.map tolower) = tolower c :: p.map tolower := by
        unfold gobble; split
        · rename_i heq; injection heq with h _; exact absurd h h1
        · rfl
      simp [e1, e2]

theorem count_same_nocase_map_tolower (name p : List Nat) :
    count_same_nocase name (p.map tolower) = count_same_nocase name p := by
  induction name generalizing p with
  | nil => cases p <;> rfl
  | cons h name ih =>
    cases p with
    | nil => rfl
    | cons v p => simp [count_same_nocase, tolower_tolower, ih]

theorem stricmp_map_tolower (name p : List Nat) :
    stricmp name (p.map tolower) = stricmp name p := by
  induction name generalizing p with
  | nil => cases p <;> simp [stricmp, tolower_tolower]
  | cons h name ih =>
    cases p with
    | nil => rfl
    | cons v p => simp [stricmp, tolower_tolower, ih]

theorem FindDir_loop_map_tolower (dir : ZIPFSZipFileDir) (path : List Nat) (i : Nat)
    (cs : List Nat) :
    FindDir_loop dir (path.map tolower) i (cs.map tolower) = FindDir_loop dir path i cs := by
  induction cs generalizing dir path i with
  | nil => rfl
  | cons c cs ih =>
    simp only [List.map_cons, FindDir_loop, tolower_eq_slash, count_same_nocase_map_tolower]
    split_ifs with hc
    · cases dir.mChildDirs.find? (fun cursor => count_same_nocase cursor.mName path == i) with
      | none => rfl
      | some cursor => exact ih cursor cs 0
    · exact ih dir path (i + 1)

theorem getD_map_tolower_eq_slash (p : List Nat) (i : Nat) :
    (p.map tolower).getD i 0 = 47 ↔ p.getD i 0 = 47 := by
  induction p generalizing i with
  | nil => simp
  | cons c p ih =>
    cases i with
    | zero => simp [tolower_eq_slash]
    | succ i => simpa using ih i

theorem FindEntry_scan_map_tolower (p : List Nat) (i : Nat) :
    FindEntry_scan (p.map tolower) i = (FindEntry_scan p i).map (List.map tolower) := by
  induction i with
  | zero =>
    simp only [FindEntry_scan, getD_map_tolower_eq_slash]
    split_ifs <;> simp [List.map_drop]
  | succ i ih =>
    simp only [FindEntry_scan, getD_map_tolower_eq_slash, ih]
    split_ifs <;> simp [List.map_drop]

theorem FindEntry_map_tolower (self : ZIPFSZipFile) (p : List Nat) :
    ZIPFSZipFile_FindEntry self (p.map tolower) = ZIPFSZipFile_FindEntry self p := by
  unfold ZIPFSZipFile_FindEntry
  simp only [cstr_map_tolower, List.length_map]
  cases hlen : (cstr p).length with
  | zero => rfl
  | succ i =>
    simp only [getD_map_tolower_eq_slash]
    split_ifs with h47
    · rfl
    · have hdir : ZIPFSZipFile_FindDir self (some ((cstr p).map tolower))
          = ZIPFSZipFile_FindDir self (some (cstr p)) := by
        unfold ZIPFSZipFile_FindDir
        cases self.mRoot with
        | none => rfl
        | some root =>
          simp only [cstr_map_tolower, gobble_map_tolower, FindDir_loop_map_tolower]
      rw [hdir, FindEntry_scan_map_tolower]
      cases ZIPFSZipFile_FindDir self (some (cstr p)) with
      | none => rfl
      | some dir =>
        cases FindEntry_scan (cstr p) i with
        | none => rfl
        | some name => simp [stricmp_map_tolower]


/-! ## Segments -/

theorem count_same_nocase_leading (name seg x : List Nat)
    (h : count_same_nocase name (seg ++ x) = seg.length) :
    seg.map tolower <+: name.map tolower := by
  induction seg generalizing name with
  | nil => simp
  | cons s seg ih =>
    cases name with
    | nil => simp [count_same_nocase] at h
    | cons n name =>
      by_cases hn : tolower n = tolower s
      · have h2 : count_same_nocase name (seg ++ x) = seg.length := by
          rw [List.cons_append, count_same_nocase, if_pos hn, List.length_cons] at h
          omega
        have := ih name h2
        simp only [List.map_cons, hn]
        exact (List.prefix_cons_inj _).2 this
      · simp [count_same_nocase, hn] at h

theorem count_same_nocase_append (name a b : List Nat) (i : Nat) (hi : i < a.length) :
    count_same_nocase name (a ++ b) = i ↔ count_same_nocase name a = i := by
  induction name generalizing a i with
  | nil => cases a <;> simp [count_same_nocase]
  | cons n name ih =>
    cases a with
    | nil => simp at hi
    | cons v a =>
      simp only [List.cons_append, count_same_nocase]
      split_ifs with hn
      · cases i with
        | zero => simp
        | succ i =>
          have := ih a i (by simpa using hi)
          simp only [Nat.add_right_cancel_iff]
          exact this
      · rfl

theorem FindDir_loop_cons (dir : ZIPFSZipFileDir) (path : List Nat) (i c : Nat)
    (rest : List Nat) :
    FindDir_loop dir path i (c :: rest) =
      if c = 47 then
        match dir.mChildDirs.find?
            (fun cursor => count_same_nocase cursor.mName path == i) with
        | some cursor => FindDir_loop cursor rest 0 rest
        | none => none
      else FindDir_loop dir path (i + 1) rest := by
  simp only [FindDir_loop]

theorem FindDir_loop_segment (dir : ZIPFSZipFileDir) (path seg rest : List Nat) (i : Nat)
    (hseg : 47 ∉ seg) :
    FindDir_loop dir path i (seg ++ 47 :: rest) =
      match dir.mChildDirs.find?
          (fun cursor => count_same_nocase cursor.mName path == i + seg.length) with
      | some cursor => FindDir_loop cursor rest 0 rest
      | none => none := by
  induction seg generalizing i with
  | nil => simp [FindDir_loop_cons]
  | cons s seg ih =>
    have hs : s ≠ 47 := fun h => hseg (by simp [h])
    have hseg2 : 47 ∉ seg := fun h => hseg (by simp [h])
    rw [List.cons_append, FindDir_loop_cons, if_neg hs, ih (i + 1) hseg2, List.length_cons]
    have : i + 1 + seg.length = i + (seg.length + 1) := by omega
    rw [this]

theorem FindDir_loop_append (dir : ZIPFSZipFileDir) (a pre s : List Nat)
    (ha : 47 ∉ a) (hpre : (pre = [] ∧ a = []) ∨ pre.getLast? = some 47) :
    FindDir_loop dir (a ++ pre ++ s) a.length (pre ++ s) =
      (FindDir_loop dir (a ++ pre) a.length pre).bind (fun d => FindDir_loop d s 0 s) := by
  induction pre generalizing dir a with
  | nil =>
    rcases hpre with ⟨_, rfl⟩ | h
    · simp [FindDir_loop]
    · simp at h
  | cons c t ih =>
    have hlast : (c :: t).getLast? = some 47 := by
      rcases hpre with ⟨h, _⟩ | h
      · simp at h
      · exact h
    by_cases hc : c = 47
    · subst hc
      have ht : (t = [] ∧ ([] : List Nat) = []) ∨ t.getLast? = some 47 := by
        cases t with
        | nil => exact Or.inl ⟨rfl, rfl⟩
        | cons u t => right; simpa [List.getLast?_cons_cons] using hlast
      rw [List.cons_append, FindDir_loop_cons, if_pos rfl, FindDir_loop_cons, if_pos rfl]
      have hp : ∀ cursor : ZIPFSZipFileDir,
          (count_same_nocase cursor.mName (a ++ 47 :: t ++ s) == a.length) =
          (count_same_nocase cursor.mName (a ++ 47 :: t) == a.length) := by
        intro cursor
        rw [Bool.eq_iff_iff, beq_iff_eq, beq_iff_eq]
        exact count_same_nocase_append cursor.mName (a ++ 47 :: t) s a.length
          (by rw [List.length_append, List.length_cons]; omega)
      simp only [hp]
      cases dir.mChildDirs.find?
          (fun cursor => count_same_nocase cursor.mName (a ++ 47 :: t) == a.length) with
      | none => rfl
      | some cursor =>
        have := ih cursor [] (by simp) ht
        simpa using this
    · have hne : t ≠ [] := by
        intro h; subst h; simp at hlast; exact hc hlast
      have ht : (t = [] ∧ a ++ [c] = []) ∨ t.getLast? = some 47 := by
        right
        cases t with
        | nil => exact absurd rfl hne
        | cons u t => simpa [List.getLast?_cons_cons] using hlast
      have ha2 : 47 ∉ a ++ [c] := by
        simp only [List.mem_append, List.mem_singleton, not_or]
        exact ⟨ha, fun h => hc h.symm⟩
      have := ih dir (a ++ [c]) ha2 ht
      rw [List.cons_append, FindDir_loop_cons, if_neg hc, FindDir_loop_cons, if_neg hc]
      simpa using this


theorem FindDir_loop_node (cs : List Nat) :
    ∀ (dir : ZIPFSZipFileDir) (path : List Nat) (i : Nat) (r : ZIPFSZipFileDir),
      FindDir_loop dir path i cs = some r → IsNodeOf r dir := by
  induction cs with
  | nil =>
    intro dir path i r h
    simp only [FindDir_loop, Option.some.injEq] at h
    subst h
    exact IsNodeOf.root _
  | cons c cs ih =>
    intro dir path i r h
    rw [FindDir_loop_cons] at h
    split_ifs at h with hc
    · cases hf : dir.mChildDirs.find?
          (fun cursor => count_same_nocase cursor.mName path == i) with
      | none => rw [hf] at h; simp at h
      | some cursor =>
        rw [hf] at h
        exact IsNodeOf.child dir cursor r (List.mem_of_find?_eq_some hf) (ih cursor cs 0 r h)
    · exact ih dir path (i + 1) r h

/-! ## Reads -/

theorem bytesOf_length (n v : Nat) : (bytesOf n v).length = n := by
  induction n generalizing v with
  | zero => rfl
  | succ n ih => simp [bytesOf, ih]

theorem fread_bytes_data (file : FILE) (n : Nat) : (fread_bytes file n).2.data = file.data := rfl

theorem fread_le_data (n old : Nat) (file : FILE) : (fread_le n old file).2.data = file.data := rfl

theorem fread_le_full (n old : Nat) (file : FILE) (h : file.pos + n ≤ file.data.length) :
    (fread_le n old file).1 = le ((file.data.drop file.pos).take n) := by
  have hl : ((file.data.drop file.pos).take n).length = n := by
    rw [List.length_take, List.length_drop]; omega
  show le ((file.data.drop file.pos).take n ++
      (bytesOf n old).drop ((file.data.drop file.pos).take n).length) = _
  rw [hl, List.drop_of_length_le (le_of_eq (bytesOf_length n old)), List.append_nil]

theorem load32_window (data : List Nat) (c s i : Nat) (h : i + 4 ≤ s) :
    load32 ((data.drop c).take s) i = load32 data (c + i) := by
  unfold load32
  congr 1
  rw [List.drop_take, List.take_take, List.drop_drop]
  congr 1
  omega

/-! ## The backward scan -/

theorem scan_buffer_some (buffer : List Nat) (n i : Nat) (h : scan_buffer buffer n = some i) :
    1 ≤ i ∧ i ≤ n ∧ load32 buffer i = ARCHIVE_HEADER_SIGNATURE ∧
      ∀ j, i < j → j ≤ n → load32 buffer j ≠ ARCHIVE_HEADER_SIGNATURE := by
  induction n with
  | zero => simp [scan_buffer] at h
  | succ n ih =>
    rw [scan_buffer] at h
    split_ifs at h with hs
    · injection h with h
      subst h
      exact ⟨by omega, le_refl _, hs, fun j h1 h2 => by omega⟩
    · obtain ⟨h1, h2, h3, h4⟩ := ih h
      refine ⟨h1, by omega, h3, fun j hj1 hj2 => ?_⟩
      by_cases hj : j = n + 1
      · subst hj; exact hs
      · exact h4 j hj1 (by omega)

theorem scan_buffer_none (buffer : List Nat) (n : Nat) (h : scan_buffer buffer n = none) :
    ∀ j, 1 ≤ j → j ≤ n → load32 buffer j ≠ ARCHIVE_HEADER_SIGNATURE := by
  induction n with
  | zero => intro j h1 h2; omega
  | succ n ih =>
    rw [scan_buffer] at h
    split_ifs at h with hs
    intro j h1 h2
    by_cases hj : j = n + 1
    · subst hj; exact hs
    · exact ih h j h1 (by omega)

theorem scan_loop_spec (data : List Nat) (hlen : data.length ≤ LONG_MAX) (fuel : Nat) :
    ∀ (file : FILE) (cursor : Nat), file.data = data → cursor ≤ data.length →
      (∀ o, cursor < o → ¬ signatureAt data o) →
      ((scan_loop data.length fuel file cursor).2.data = data ∧
       ∀ off, (scan_loop data.length fuel file cursor).1 = some off →
        signatureAt data off ∧ ∀ o, signatureAt data o → o ≤ off) := by
  induction fuel with
  | zero => intro file cursor hd _ _; simp [scan_loop, hd]
  | succ fuel ih =>
    intro file cursor hd hc hinv
    rw [scan_loop]
    split_ifs with h0
    · simp [hd]
    · simp only [SCAN_BUFFER_SIZE]
      generalize hc' : (if cursor > 256 - 4 then cursor - (256 - 4) else 0) = cursor'
      generalize hs' : (if cursor' + 256 > data.length then data.length - cursor' else 256)
        = scansize
      have hc1 : cursor' ≤ cursor := by rw [← hc']; split_ifs <;> omega
      have hseek : (fseek_set file cursor').1 = { data := data, pos := cursor' } := by
        unfold fseek_set
        rw [if_pos (by omega)]
        simp [hd]
      have hbuf : (fread_bytes (fseek_set file cursor').1 scansize).1
          = (data.drop cursor').take scansize := by
        rw [hseek]; rfl
      have hfile : (fread_bytes (fseek_set file cursor').1 scansize).2.data = data := by
        rw [hseek]; rfl
      have hs1 : cursor' + scansize ≤ data.length := by rw [← hs']; split_ifs <;> omega
      have hwin : ∀ j, j ≤ scansize - 4 → 1 ≤ j →
          load32 ((data.drop cursor').take scansize) j = load32 data (cursor' + j) := by
        intro j hj1 hj2
        exact load32_window data cursor' scansize j (by omega)
      -- every offset above the window's last index is either scanned before or too close
      -- to the end of the file
      have habove : ∀ o, cursor' + (scansize - 4) < o → ¬ signatureAt data o := by
        intro o ho hsig
        by_cases hoc : cursor < o
        · exact hinv o hoc hsig
        · have := hsig.1
          rw [← hs'] at ho
          rw [← hc'] at ho
          split_ifs at ho <;> omega
      rw [hbuf]
      cases hscan : scan_buffer ((data.drop cursor').take scansize) (scansize - 4) with
      | some i =>
        simp only
        refine ⟨hfile, ?_⟩
        intro off hoff
        injection hoff with hoff
        subst hoff
        obtain ⟨h1, h2, h3, h4⟩ := scan_buffer_some _ _ _ hscan
        refine ⟨⟨by omega, ?_⟩, ?_⟩
        · rw [← hwin i h2 h1]; exact h3
        · intro o hso
          by_contra hlt
          by_cases hin : o ≤ cursor' + (scansize - 4)
          · have := h4 (o - cursor') (by omega) (by omega)
            rw [hwin (o - cursor') (by omega) (by omega)] at this
            have e : cursor' + (o - cursor') = o := by omega
            rw [e] at this
            exact this hso.2
          · exact habove o (by omega) hso
      | none =>
        simp only
        have hnone := scan_buffer_none _ _ hscan
        apply ih _ cursor' hfile (by omega)
        intro o ho hso
        by_cases hin : o ≤ cursor' + (scansize - 4)
        · have := hnone (o - cursor') (by omega) (by omega)
          rw [hwin (o - cursor') (by omega) (by omega)] at this
          have e : cursor' + (o - cursor') = o := by omega
          rw [e] at this
          exact this hso.2
        · exact habove o (by omega) hso

/-- The bound on the iterations of the scan never cuts it short: with any two
bounds that are at least `cursor`, `scan_loop` gives the same result. -/
theorem scan_loop_fuel (filelen : Nat) (fuel1 : Nat) :
    ∀ (fuel2 : Nat) (file : FILE) (cursor : Nat), cursor ≤ fuel1 → cursor ≤ fuel2 →
      scan_loop filelen fuel1 file cursor = scan_loop filelen fuel2 file cursor := by
  induction fuel1 with
  | zero =>
    intro fuel2 file cursor h1 _
    have hc : cursor = 0 := by omega
    subst hc
    cases fuel2 <;> simp [scan_loop]
  | succ fuel1 ih =>
    intro fuel2 file cursor h1 h2
    cases fuel2 with
    | zero =>
      have hc : cursor = 0 := by omega
      subst hc
      simp [scan_loop]
    | succ fuel2 =>
      rw [scan_loop, scan_loop]
      split_ifs with h0
      · rfl
      · simp only [SCAN_BUFFER_SIZE]
        generalize hc' : (if cursor > 256 - 4 then cursor - (256 - 4) else 0) = cursor'
        have hc1 : cursor' < cursor := by rw [← hc']; split_ifs <;> omega
        rw [ih fuel2 _ cursor' (by omega) (by omega)]

/-! ## The loop over the entries -/

theorem read_entry_header_mismatch (file : FILE) (header : EntryHeader)
    (havail : file.pos + 4 ≤ file.data.length)
    (hsig : load32 file.data file.pos ≠ ENTRY_HEADER_SIGNATURE) :
    (read_entry_header file header).1 = -1 := by
  have h := fread_le_full 4 header.mSignature file havail
  unfold read_entry_header
  simp only
  rw [h]
  rw [if_pos (by exact hsig)]

theorem New_step_mismatch (junk : Nat → Nat) (st : NewState)
    (havail : st.file.pos + 4 ≤ st.file.data.length)
    (hsig : load32 st.file.data st.file.pos ≠ ENTRY_HEADER_SIGNATURE) :
    New_step junk st = .val none := by
  unfold New_step
  simp only
  rw [read_entry_header_mismatch st.file st.entryHeader havail hsig]
  simp

theorem New_loop_add (junk : Nat → Nat) (k m : Nat) (st : NewState) :
    New_loop junk (k + m) st =
      match New_loop junk k st with
      | .val (some s) => New_loop junk m s
      | .val none => .val none
      | .fault => .fault := by
  induction k generalizing st with
  | zero => simp [New_loop]
  | succ k ih =>
    have e : k + 1 + m = (k + m) + 1 := by omega
    rw [e, New_loop, New_loop]
    cases New_step junk st with
    | fault => rfl
    | val r =>
      cases r with
      | none => rfl
      | some s => exact ih s

theorem New_loop_mismatch (junk : Nat → Nat) (n k : Nat) (st s : NewState) (hk : k < n)
    (hst : New_loop junk k st = .val (some s))
    (havail : s.file.pos + 4 ≤ s.file.data.length)
    (hsig : load32 s.file.data s.file.pos ≠ ENTRY_HEADER_SIGNATURE) :
    New_loop junk n st = .val none := by
  have e : n = k + ((n - k - 1) + 1) := by omega
  rw [e, New_loop_add, hst]
  simp only
  rw [New_loop, New_step_mismatch junk s havail hsig]



theorem scan_loop_none (data : List Nat) (hlen : data.length ≤ LONG_MAX) (fuel : Nat) :
    ∀ (file : FILE) (cursor : Nat), file.data = data → cursor ≤ data.length → cursor ≤ fuel →
      (∀ o, cursor < o → ¬ signatureAt data o) →
      (scan_loop data.length fuel file cursor).1 = none →
      ∀ o, 1 ≤ o → ¬ signatureAt data o := by
  induction fuel with
  | zero =>
    intro file cursor _ _ hf hinv _ o ho
    exact hinv o (by omega)
  | succ fuel ih =>
    intro file cursor hd hc hf hinv hnone
    rw [scan_loop] at hnone
    split_ifs at hnone with h0
    · intro o ho; exact hinv o (by omega)
    · simp only [SCAN_BUFFER_SIZE] at hnone
      generalize hc' : (if cursor > 256 - 4 then cursor - (256 - 4) else 0) = cursor' at hnone
      generalize hs' : (if cursor' + 256 > data.length then data.length - cursor' else 256)
        = scansize at hnone
      have hc1 : cursor' < cursor := by rw [← hc']; split_ifs <;> omega
      have hseek : (fseek_set file cursor').1 = { data := data, pos := cursor' } := by
        unfold fseek_set
        rw [if_pos (by omega)]
        simp [hd]
      have hbuf : (fread_bytes (fseek_set file cursor').1 scansize).1
          = (data.drop cursor').take scansize := by
        rw [hseek]; rfl
      have hfile : (fread_bytes (fseek_set file cursor').1 scansize).2.data = data := by
        rw [hseek]; rfl
      have hs1 : cursor' + scansize ≤ data.length := by rw [← hs']; split_ifs <;> omega
      rw [hbuf] at hnone
      cases hscan : scan_buffer ((data.drop cursor').take scansize) (scansize - 4) with
      | some i => rw [hscan] at hnone; simp at hnone
      | none =>
        rw [hscan] at hnone
        have hno := scan_buffer_none _ _ hscan
        apply ih _ cursor' hfile (by omega) (by omega) _ hnone
        intro o ho hso
        by_cases hin : o ≤ cursor' + (scansize - 4)
        · have := hno (o - cursor') (by omega) (by omega)
          rw [load32_window data cursor' scansize (o - cursor') (by omega)] at this
          have e : cursor' + (o - cursor') = o := by omega
          rw [e] at this
          exact this hso.2
        · by_cases hoc : cursor < o
          · exact hinv o hoc hso
          · have := hso.1
            rw [← hs'] at hin
            rw [← hc'] at hin
            split_ifs at hin <;> omega

theorem cstr_eq_self (path : List Nat) (h : 0 ∉ path) : cstr path = path := by
  unfold cstr
  rw [List.takeWhile_eq_self_iff]
  intro c hc
  have : c ≠ 0 := fun h0 => h (h0 ▸ hc)
  simpa using this

/-! ## Insertion followed by lookup -/

theorem find?_set_of_findIdx? {α : Type} (p : α → Bool) (l : List α) (k : Nat) (x : α)
    (hk : l.findIdx? p = some k) (hx : p x = true) : (l.set k x).find? p = some x := by
  induction l generalizing k with
  | nil => simp at hk
  | cons a l ih =>
    rw [List.findIdx?_cons] at hk
    by_cases ha : p a = true
    · rw [if_pos ha] at hk
      injection hk with hk
      subst hk
      simp [List.find?_cons, hx]
    · rw [if_neg ha, List.findIdx?_succ] at hk
      cases hf : l.findIdx? p 0 with
      | none => rw [hf] at hk; simp at hk
      | some k' =>
        rw [hf] at hk
        simp only [Option.map_some', Option.some.injEq] at hk
        subst hk
        have ha' : p a = false := by simpa using ha
        simp only [List.set_cons_succ, List.find?_cons, ha']
        exact ih k' hf

theorem get?_of_findIdx? {α : Type} (p : α → Bool) (l : List α) (k : Nat)
    (hk : l.findIdx? p = some k) : ∃ c, l.get? k = some c ∧ p c = true := by
  induction l generalizing k with
  | nil => simp at hk
  | cons a l ih =>
    rw [List.findIdx?_cons] at hk
    by_cases ha : p a = true
    · rw [if_pos ha] at hk
      injection hk with hk
      subst hk
      exact ⟨a, rfl, ha⟩
    · rw [if_neg ha, List.findIdx?_succ] at hk
      cases hf : l.findIdx? p 0 with
      | none => rw [hf] at hk; simp at hk
      | some k' =>
        rw [hf] at hk
        simp only [Option.map_some', Option.some.injEq] at hk
        subst hk
        obtain ⟨c, h1, h2⟩ := ih k' hf
        exact ⟨c, by simpa using h1, h2⟩

theorem count_same_nocase_take (path : List Nat) (len : Nat) (h : len ≤ path.length) :
    count_same_nocase (path.take len) path = len := by
  induction len generalizing path with
  | zero => simp [count_same_nocase]
  | succ n ih =>
    cases path with
    | nil => simp at h
    | cons c path =>
      simp only [List.take_succ_cons, count_same_nocase, if_true]
      rw [ih path (by simpa using h)]

theorem AffirmSubDir_mName (dir : ZIPFSZipFileDir) (path : List Nat) (len : Nat) :
    (ZIPFSZipFileDir_AffirmSubDir dir path len).1.mName = dir.mName := by
  unfold ZIPFSZipFileDir_AffirmSubDir
  split <;> rfl

theorem AffirmSubDir_findIdx? (dir : ZIPFSZipFileDir) (path : List Nat) (len : Nat)
    (h : len ≤ path.length) :
    (ZIPFSZipFileDir_AffirmSubDir dir path len).1.mChildDirs.findIdx?
        (fun c => count_same_nocase c.mName path == len) =
      some (ZIPFSZipFileDir_AffirmSubDir dir path len).2 := by
  unfold ZIPFSZipFileDir_AffirmSubDir
  split
  · rename_i k hk
    exact hk
  · simp only [ZIPFSZipFileDir.mChildDirs, List.findIdx?_cons, ZIPFSZipFileDir.mName]
    rw [count_same_nocase_take path len h]
    simp

theorem AddEntry_loop_cons (header : EntryHeader) (dir : ZIPFSZipFileDir) (path : List Nat)
    (i c : Nat) (rest : List Nat) :
    AddEntry_loop header dir path i (c :: rest) =
      if c = 47 then
        match (ZIPFSZipFileDir_AffirmSubDir dir path i).1.mChildDirs.get?
            (ZIPFSZipFileDir_AffirmSubDir dir path i).2 with
        | some child =>
          .mk (ZIPFSZipFileDir_AffirmSubDir dir path i).1.mName
            ((ZIPFSZipFileDir_AffirmSubDir dir path i).1.mChildDirs.set
              (ZIPFSZipFileDir_AffirmSubDir dir path i).2
              (AddEntry_loop header child rest 0 rest))
            (ZIPFSZipFileDir_AffirmSubDir dir path i).1.mChildFiles
        | none => (ZIPFSZipFileDir_AffirmSubDir dir path i).1
      else AddEntry_loop header dir path (i + 1) rest := by
  simp only [AddEntry_loop]

theorem AddEntry_loop_mName (header : EntryHeader) (cs : List Nat) :
    ∀ (dir : ZIPFSZipFileDir) (path : List Nat) (i : Nat),
      (AddEntry_loop header dir path i cs).mName = dir.mName := by
  induction cs with
  | nil =>
    intro dir path i
    simp only [AddEntry_loop]
    split_ifs <;> rfl
  | cons c cs ih =>
    intro dir path i
    rw [AddEntry_loop_cons]
    split_ifs with hc
    · split
      · exact AffirmSubDir_mName dir path i
      · exact AffirmSubDir_mName dir path i
    · exact ih dir path (i + 1)

theorem AddEntry_loop_segment (header : EntryHeader) (dir : ZIPFSZipFileDir)
    (path seg cs : List Nat) (i : Nat) (hseg : 47 ∉ seg) :
    AddEntry_loop header dir path i (seg ++ cs) =
      AddEntry_loop header dir path (i + seg.length) cs := by
  induction seg generalizing i with
  | nil => simp
  | cons s seg ih =>
    have hs : s ≠ 47 := fun h => hseg (by simp [h])
    have hseg2 : 47 ∉ seg := fun h => hseg (by simp [h])
    rw [List.cons_append, AddEntry_loop_cons, if_neg hs, ih (i + 1) hseg2, List.length_cons]
    have : i + 1 + seg.length = i + (seg.length + 1) := by omega
    rw [this]

theorem FindDir_loop_file (dir : ZIPFSZipFileDir) (path cs : List Nat) (i : Nat)
    (h : 47 ∉ cs) : FindDir_loop dir path i cs = some dir := by
  induction cs generalizing i with
  | nil => rfl
  | cons c cs ih =>
    have hc : c ≠ 47 := fun e => h (by simp [e])
    rw [FindDir_loop_cons, if_neg hc]
    exact ih (i + 1) (fun e => h (by simp [e]))

theorem length_le_joinPath_head (s : List Nat) (rest : List Nat) :
    s.length ≤ (s ++ 47 :: rest).length := by
  rw [List.length_append]; omega

theorem AddEntry_FindDir (header : EntryHeader) (segs : List (List Nat)) (file : List Nat)
    (hsegs : ∀ s ∈ segs, 47 ∉ s) (hfile : 47 ∉ file) (hne : file ≠ []) :
    ∀ dir : ZIPFSZipFileDir, ∃ d,
      FindDir_loop (AddEntry_loop header dir (joinPath segs file) 0 (joinPath segs file))
        (joinPath segs file) 0 (joinPath segs file) = some d ∧
      d.mChildFiles.head? = some (newEntry header file) := by
  induction segs with
  | nil =>
    intro dir
    simp only [joinPath, List.foldr_nil]
    have e := AddEntry_loop_segment header dir file file [] 0 hfile
    rw [List.append_nil] at e
    rw [e]
    simp only [AddEntry_loop, hne, ne_eq, not_false_eq_true, if_true]
    exact ⟨_, FindDir_loop_file _ _ _ _ hfile, rfl⟩
  | cons s ss ih =>
    intro dir
    have hs : 47 ∉ s := hsegs s (by simp)
    have hss : ∀ t ∈ ss, 47 ∉ t := fun t ht => hsegs t (by simp [ht])
    have hP : joinPath (s :: ss) file = s ++ 47 :: joinPath ss file := rfl
    rw [hP]
    generalize joinPath ss file = P at ih ⊢
    rw [AddEntry_loop_segment header dir (s ++ 47 :: P) s (47 :: P) 0 hs, Nat.zero_add,
      AddEntry_loop_cons, if_pos rfl]
    have hidx := AffirmSubDir_findIdx? dir (s ++ 47 :: P) s.length
      (length_le_joinPath_head s P)
    obtain ⟨child, hget, hpred⟩ := get?_of_findIdx? _ _ _ hidx
    rw [hget]
    simp only
    rw [FindDir_loop_segment _ (s ++ 47 :: P) s P 0 hs, Nat.zero_add]
    have hfind := find?_set_of_findIdx?
      (fun c : ZIPFSZipFileDir => count_same_nocase c.mName (s ++ 47 :: P) == s.length)
      _ _ (AddEntry_loop header child P 0 P) hidx
      (by
        simp only [AddEntry_loop_mName]
        exact hpred)
    simp only [ZIPFSZipFileDir.mChildDirs] at hfind ⊢
    rw [hfind]
    exact ih hss child

theorem joinPath_decompose (p : List Nat) :
    ∃ segs file, (∀ s ∈ segs, 47 ∉ s) ∧ 47 ∉ file ∧ p = joinPath segs file := by
  induction p with
  | nil => exact ⟨[], [], by simp, by simp, rfl⟩
  | cons c p ih =>
    obtain ⟨segs, file, h1, h2, h3⟩ := ih
    by_cases hc : c = 47
    · subst hc
      refine ⟨[] :: segs, file, ?_, h2, ?_⟩
      · intro s hs
        rcases List.mem_cons.1 hs with h | h
        · subst h; simp
        · exact h1 s h
      · rw [h3]; rfl
    · cases segs with
      | nil =>
        refine ⟨[], c :: file, by simp, ?_, ?_⟩
        · intro h
          rcases List.mem_cons.1 h with h | h
          · exact hc h.symm
          · exact h2 h
        · rw [h3]; rfl
      | cons s ss =>
        refine ⟨(c :: s) :: ss, file, ?_, h2, ?_⟩
        · intro t ht
          rcases List.mem_cons.1 ht with h | h
          · subst h
            intro h47
            rcases List.mem_cons.1 h47 with h | h
            · exact hc h.symm
            · exact h1 s (by simp) h
          · exact h1 t (by simp [h])
        · rw [h3]; rfl

theorem joinPath_last_slash (segs : List (List Nat)) (file : List Nat) (h : segs ≠ []) :
    ∃ a, joinPath segs file = a ++ 47 :: file := by
  induction segs with
  | nil => exact absurd rfl h
  | cons s ss ih =>
    cases ss with
    | nil => exact ⟨s, rfl⟩
    | cons t ts =>
      obtain ⟨a, ha⟩ := ih (by simp)
      refine ⟨s ++ 47 :: a, ?_⟩
      show s ++ 47 :: joinPath (t :: ts) file = _
      rw [ha]; simp

theorem gobble_joinPath (segs : List (List Nat)) (file : List Nat)
    (hsegs : ∀ s ∈ segs, 47 ∉ s) (hfile : 47 ∉ file) :
    ∃ segs', (∀ s ∈ segs', 47 ∉ s) ∧ gobble (joinPath segs file) = joinPath segs' file := by
  cases segs with
  | nil =>
    refine ⟨[], by simp, ?_⟩
    show gobble file = file
    cases file with
    | nil => rfl
    | cons c file =>
      have hc : c ≠ 47 := fun e => hfile (by simp [e])
      unfold gobble
      split
      · rename_i heq; injection heq with h _; exact absurd h hc
      · rfl
  | cons s ss =>
    cases s with
    | nil =>
      exact ⟨ss, fun t ht => hsegs t (by simp [ht]), rfl⟩
    | cons c s =>
      refine ⟨(c :: s) :: ss, hsegs, ?_⟩
      have hc : c ≠ 47 := fun e => hsegs (c :: s) (by simp) (by simp [e])
      show gobble (c :: (s ++ 47 :: joinPath ss file)) = c :: (s ++ 47 :: joinPath ss file)
      unfold gobble
      split
      · rename_i heq; injection heq with h _; exact absurd h hc
      · rfl

theorem getD_append_slash (a file : List Nat) : (a ++ 47 :: file).getD a.length 0 = 47 := by
  induction a with
  | nil => rfl
  | cons c a ih => simpa using ih

theorem getD_append_file (a file : List Nat) (j : Nat) :
    (a ++ 47 :: file).getD (a.length + (j + 1)) 0 = file.getD j 0 := by
  induction a with
  | nil => simp
  | cons c a ih =>
    have e : (c :: a).length + (j + 1) = (a.length + (j + 1)) + 1 := by
      rw [List.length_cons]; omega
    rw [e, List.cons_append, List.getD_cons_succ]
    exact ih

theorem drop_append_slash (a file : List Nat) : (a ++ 47 :: file).drop (a.length + 1) = file := by
  induction a with
  | nil => rfl
  | cons c a ih => simp

theorem getD_ne_slash (file : List Nat) (hfile : 47 ∉ file) (j : Nat) (hj : j < file.length) :
    file.getD j 0 ≠ 47 := by
  induction file generalizing j with
  | nil => simp at hj
  | cons c file ih =>
    cases j with
    | zero =>
      intro h
      exact hfile (by simp at h; simp [h])
    | succ j =>
      rw [List.getD_cons_succ]
      exact ih (fun h => hfile (by simp [h])) j (by simpa using hj)

theorem FindEntry_scan_at (p : List Nat) (n : Nat) (h : p.getD n 0 = 47) :
    FindEntry_scan p n = some (p.drop (n + 1)) := by
  cases n with
  | zero => rw [FindEntry_scan, if_pos h]
  | succ n => rw [FindEntry_scan, if_pos h]

theorem FindEntry_scan_skip (p : List Nat) (n : Nat) (h : p.getD (n + 1) 0 ≠ 47) :
    FindEntry_scan p (n + 1) = FindEntry_scan p n := by
  rw [FindEntry_scan, if_neg h]

theorem FindEntry_scan_last (a file : List Nat) (hfile : 47 ∉ file) (j : Nat)
    (hj : j ≤ file.length) :
    FindEntry_scan (a ++ 47 :: file) (a.length + j) = some file := by
  induction j with
  | zero =>
    rw [Nat.add_zero, FindEntry_scan_at _ _ (getD_append_slash a file), drop_append_slash]
  | succ j ih =>
    have hget : (a ++ 47 :: file).getD (a.length + j + 1) 0 ≠ 47 := by
      have e : a.length + j + 1 = a.length + (j + 1) := by omega
      rw [e, getD_append_file]
      exact getD_ne_slash file hfile j (by omega)
    have e : a.length + (j + 1) = a.length + j + 1 := by omega
    rw [e, FindEntry_scan_skip _ _ hget]
    exact ih (by omega)

theorem stricmp_self (s : List Nat) : stricmp s s = 0 := by
  induction s with
  | nil => rfl
  | cons c s ih => simp [stricmp, ih]

/-! ## Names with and without a separator -/

theorem zero_not_mem_cstr (p : List Nat) : 0 ∉ cstr p := by
  intro h
  have := List.mem_takeWhile_imp h
  simp at this

theorem gobble_of_not_mem (path : List Nat) (h : 47 ∉ path) : gobble path = path := by
  cases path with
  | nil => rfl
  | cons c path =>
    have hc : c ≠ 47 := fun e => h (by simp [e])
    unfold gobble
    split
    · rename_i heq
      simp only [List.cons.injEq] at heq
      exact absurd heq.1 hc
    · rfl

theorem getD_ne_of_not_mem (l : List Nat) (h : 47 ∉ l) (j : Nat) : l.getD j 0 ≠ 47 := by
  by_cases hj : j < l.length
  · exact getD_ne_slash l h j hj
  · rw [List.getD_eq_default _ _ (by omega)]
    decide

theorem FindEntry_scan_none (filename : List Nat) (h : 47 ∉ filename) (i : Nat) :
    FindEntry_scan filename i = none := by
  induction i with
  | zero => rw [FindEntry_scan, if_neg (getD_ne_of_not_mem filename h 0)]
  | succ i ih => rw [FindEntry_scan, if_neg (getD_ne_of_not_mem filename h (i + 1)), ih]

theorem FindEntry_scan_some (filename : List Nat) (i j : Nat) (hj : j ≤ i)
    (h : filename.getD j 0 = 47) : ∃ name, FindEntry_scan filename i = some name := by
  induction i with
  | zero =>
    have : j = 0 := by omega
    subst this
    exact ⟨_, FindEntry_scan_at filename 0 h⟩
  | succ i ih =>
    by_cases hi : filename.getD (i + 1) 0 = 47
    · exact ⟨_, FindEntry_scan_at filename (i + 1) hi⟩
    · rw [FindEntry_scan_skip filename i hi]
      have : j ≠ i + 1 := fun e => hi (e ▸ h)
      exact ih (by omega)

/-- On a filename with a `'/'` the function `ZIPFSZipFile_FindEntry` stays
inside the string: it returns an entry or the null pointer. -/
theorem FindEntry_slash_returns (self : ZIPFSZipFile) (p : List Nat) (hs : 47 ∈ cstr p) :
    ∃ r, ZIPFSZipFile_FindEntry self p = .val r := by
  unfold ZIPFSZipFile_FindEntry
  simp only
  obtain ⟨j, hj, hget⟩ := List.mem_iff_getElem.1 hs
  cases hl : (cstr p).length with
  | zero => omega
  | succ i =>
    simp only
    split_ifs with h1
    · exact ⟨_, rfl⟩
    · cases ZIPFSZipFile_FindDir self (some (cstr p)) with
      | none => exact ⟨_, rfl⟩
      | some dir =>
        simp only
        obtain ⟨name, hname⟩ := FindEntry_scan_some (cstr p) i j (by omega)
          (by rw [List.getD_eq_getElem _ _ hj]; exact hget)
        rw [hname]
        exact ⟨_, rfl⟩

/-! ## The entry stream: bounds -/

theorem size_sub_eq (a b : Nat) (hb : b ≤ a) (ha : a < SIZE) : size_sub a b = a - b := by
  unfold size_sub SIZE at *
  omega

theorem size_sub_lt (a b : Nat) : size_sub a b < SIZE := by
  unfold size_sub
  exact Nat.mod_lt _ (by unfold SIZE; omega)

theorem fread_bytes_length_le (file : FILE) (n : Nat) : (fread_bytes file n).1.length ≤ n := by
  unfold fread_bytes
  simp only [List.length_take]
  omega

theorem fread_bytes_pos (file : FILE) (n : Nat) :
    (fread_bytes file n).2.pos = file.pos + (fread_bytes file n).1.length := rfl

theorem Read_cacheSize_eq {σ : Type} (self : ZIPFSZipStream σ) (hs : SizesFit self)
    (hc : CursorsInRange self) :
    Read_cacheSize self =
      min self.mBufferSize (self.mEntry.mCompressedSize - self.mCompressedCursor) := by
  unfold Read_cacheSize
  rw [size_sub_eq _ _ hc.1 hs.1]
  simp only
  split <;> omega

/-- What the refill block leaves unchanged, and the range of the compressed
cursor after it. -/
theorem Read_refill_frame {σ : Type} (self self' : ZIPFSZipStream σ)
    (h : Read_refill self = some self') :
    self'.mEntry = self.mEntry ∧ self'.mUncompressedCursor = self.mUncompressedCursor ∧
    self'.mBufferSize = self.mBufferSize ∧ self'.mBaseAddr = self.mBaseAddr ∧
    self'.mStream.state = self.mStream.state ∧
    self'.mStream.avail_out = self.mStream.avail_out ∧
    self'.mFile.data = self.mFile.data ∧
    (self.mEntry.mCompressedSize < SIZE →
      self.mCompressedCursor ≤ self.mEntry.mCompressedSize →
      self'.mCompressedCursor ≤ self.mEntry.mCompressedSize) := by
  unfold Read_refill at h
  split_ifs at h with h1 h2
  · simp only at h
    split_ifs at h with h3
    simp only [Option.some.injEq] at h
    subst h
    refine ⟨rfl, rfl, rfl, rfl, rfl, rfl, rfl, ?_⟩
    intro hs hc
    have hl := fread_bytes_length_le self.mFile (Read_cacheSize self)
    have hq : Read_cacheSize self ≤ self.mEntry.mCompressedSize - self.mCompressedCursor := by
      unfold Read_cacheSize
      rw [size_sub_eq _ _ hc hs]
      simp only
      split <;> omega
    show (self.mCompressedCursor + (fread_bytes self.mFile (Read_cacheSize self)).1.length) % SIZE
      ≤ self.mEntry.mCompressedSize
    rw [Nat.mod_eq_of_lt (by omega)]
    omega
  · simp only [Option.some.injEq] at h
    subst h
    exact ⟨rfl, rfl, rfl, rfl, rfl, rfl, rfl, fun _ hc => hc⟩
  · simp only [Option.some.injEq] at h
    subst h
    exact ⟨rfl, rfl, rfl, rfl, rfl, rfl, rfl, fun _ hc => hc⟩

theorem Read_loop_zero {σ : Type} (z : Zlib σ) (self : ZIPFSZipStream σ) (size tr : Nat)
    (out : List Nat) : Read_loop z 0 self size tr out = none := rfl

theorem Read_loop_succ {σ : Type} (z : Zlib σ) (fuel : Nat) (self : ZIPFSZipStream σ)
    (size tr : Nat) (out : List Nat) :
    Read_loop z (fuel + 1) self size tr out =
      if tr < size then
        match Read_refill self with
        | none => some (tr, out, self)
        | some self =>
          if (inflate_call z self.mStream).2.1 ≠ Z_OK then
            some ((tr + (inflate_call z self.mStream).1.length) % SIZE,
              out ++ (inflate_call z self.mStream).1,
              { self with mStream := (inflate_call z self.mStream).2.2 })
          else Read_loop z fuel { self with mStream := (inflate_call z self.mStream).2.2 } size
            ((tr + (inflate_call z self.mStream).1.length) % SIZE)
            (out ++ (inflate_call z self.mStream).1)
      else some (tr, out, self) := rfl

/-- What one call of `inflate` does to the fields of the `z_stream`, for a
decompressor that respects `avail_out`. -/
theorem inflate_call_bound {σ : Type} (z : Zlib σ) (hz : OutputBounded z) (stream : z_stream σ) :
    (inflate_call z stream).1.length ≤ stream.avail_out ∧
    (inflate_call z stream).2.2.avail_out = stream.avail_out - (inflate_call z stream).1.length := by
  unfold inflate_call
  cases hs : stream.state with
  | none => simp
  | some s => exact ⟨hz s _ _, rfl⟩

/-- The loop of `ZIPFSZipStream_Read` for a decompressor that respects
`avail_out`: `totalRead` grows, stays within `size`, counts the bytes stored,
and the loop changes neither the entry nor the uncompressed cursor; the
compressed cursor stays in range. -/
theorem Read_loop_frame {σ : Type} (z : Zlib σ) (hz : OutputBounded z) :
    ∀ (fuel : Nat) (self : ZIPFSZipStream σ) (size tr : Nat) (out : List Nat)
      (r : Nat × List Nat × ZIPFSZipStream σ),
      size < SIZE → self.mStream.avail_out + tr = size →
      Read_loop z fuel self size tr out = some r →
      tr ≤ r.1 ∧ r.1 ≤ size ∧ r.2.1.length = out.length + (r.1 - tr) ∧
      r.2.2.mEntry = self.mEntry ∧
      r.2.2.mUncompressedCursor = self.mUncompressedCursor ∧
      r.2.2.mBufferSize = self.mBufferSize ∧ r.2.2.mBaseAddr = self.mBaseAddr ∧
      r.2.2.mFile.data = self.mFile.data ∧
      (self.mEntry.mCompressedSize < SIZE →
        self.mCompressedCursor ≤ self.mEntry.mCompressedSize →
        r.2.2.mCompressedCursor ≤ self.mEntry.mCompressedSize) := by
  intro fuel
  induction fuel with
  | zero => intro self size tr out r _ _ h; simp [Read_loop_zero] at h
  | succ fuel ih =>
    intro self size tr out r hsize hav h
    rw [Read_loop_succ] at h
    split_ifs at h with h1
    · cases hr : Read_refill self with
      | none =>
        rw [hr] at h
        simp only [Option.some.injEq] at h
        subst h
        exact ⟨le_refl _, by omega, by simp, rfl, rfl, rfl, rfl, rfl, fun _ hc => hc⟩
      | some self1 =>
        rw [hr] at h
        simp only at h
        obtain ⟨f1, f2, f3, f4, f5, f6, f7, f8⟩ := Read_refill_frame self self1 hr
        obtain ⟨b1, b2⟩ := inflate_call_bound z hz self1.mStream
        rw [f6] at b1 b2
        have hm : (tr + (inflate_call z self1.mStream).1.length) % SIZE =
            tr + (inflate_call z self1.mStream).1.length := Nat.mod_eq_of_lt (by omega)
        rw [hm] at h
        split_ifs at h with h2
        · simp only [Option.some.injEq] at h
          subst h
          refine ⟨by omega, by omega, ?_, f1, f2, f3, f4, f7, f8⟩
          simp only [List.length_append]
          omega
        · have := ih _ size _ _ r hsize (by show (inflate_call z self1.mStream).2.2.avail_out + _ = size; omega) h
          obtain ⟨g1, g2, g3, g4, g5, g6, g7, g8, g9⟩ := this
          refine ⟨by omega, g2, ?_, g4.trans f1, g5.trans f2, g6.trans f3, g7.trans f4,
            g8.trans f7, ?_⟩
          · rw [g3, List.length_append]
            omega
          · intro hs hc
            have := g9 (by show self1.mEntry.mCompressedSize < SIZE; rw [f1]; exact hs)
              (by show self1.mCompressedCursor ≤ self1.mEntry.mCompressedSize; rw [f1]; exact f8 hs hc)
            rw [show ({ self1 with mStream := (inflate_call z self1.mStream).2.2 } :
              ZIPFSZipStream σ).mEntry = self1.mEntry from rfl, f1] at this
            exact this
    · simp only [Option.some.injEq] at h
      subst h
      exact ⟨le_refl _, by omega, by simp, rfl, rfl, rfl, rfl, rfl, fun _ hc => hc⟩

/-- A call of `ZIPFSZipStream_Read` on a compressed entry, for a decompressor
that respects `avail_out`: the value returned is the number of bytes stored, it
is at most the request and at most what remains, the uncompressed cursor
advances by it, and the other fields that the invariants speak of keep their
range. -/
theorem Read_frame {σ : Type} (z : Zlib σ) (hz : OutputBounded z) (fuel : Nat)
    (self : ZIPFSZipStream σ) (n : Nat) (r : Nat × List Nat × ZIPFSZipStream σ)
    (hcomp : self.mEntry.mCompression ≠ 0) (hs : self.mEntry.mUncompressedSize < SIZE)
    (hc : self.mUncompressedCursor ≤ self.mEntry.mUncompressedSize)
    (h : ZIPFSZipStream_Read z fuel self n = some r) :
    r.1 ≤ min n (self.mEntry.mUncompressedSize - self.mUncompressedCursor) ∧
    r.2.1.length = r.1 ∧
    r.2.2.mUncompressedCursor = self.mUncompressedCursor + r.1 ∧
    r.2.2.mEntry = self.mEntry ∧
    r.2.2.mBufferSize = self.mBufferSize ∧ r.2.2.mBaseAddr = self.mBaseAddr ∧
    r.2.2.mFile.data = self.mFile.data ∧
    (self.mEntry.mCompressedSize < SIZE →
      self.mCompressedCursor ≤ self.mEntry.mCompressedSize →
      r.2.2.mCompressedCursor ≤ self.mEntry.mCompressedSize) := by
  unfold ZIPFSZipStream_Read at h
  rw [size_sub_eq _ _ hc hs] at h
  simp only [if_neg hcomp] at h
  split_ifs at h with h1 h2 h3
  · simp only [Option.some.injEq] at h
    subst h
    exact ⟨by simp, rfl, rfl, rfl, rfl, rfl, rfl, fun _ hc => hc⟩
  · simp only [Option.some.injEq] at h
    subst h
    exact ⟨by simp, rfl, rfl, rfl, rfl, rfl, rfl, fun _ hc => hc⟩
  · cases hl : Read_loop z fuel
        { self with mStream := { self.mStream with
            avail_out := self.mEntry.mUncompressedSize - self.mUncompressedCursor } }
        (self.mEntry.mUncompressedSize - self.mUncompressedCursor) 0 [] with
    | none => rw [hl] at h; simp at h
    | some q =>
      rw [hl] at h
      have key := fun hsz hav => Read_loop_frame z hz fuel _ _ 0 [] q hsz hav hl
      obtain ⟨g1, g2, g3, g4, g5, g6, g7, g8, g9⟩ :=
        key (by show self.mEntry.mUncompressedSize - self.mUncompressedCursor < SIZE; omega) rfl
      obtain ⟨t, o, s'⟩ := q
      simp only [Option.some.injEq] at h
      subst h
      simp only at g1 g2 g3 g4 g5 g6 g7 g8 g9 ⊢
      have hm : (s'.mUncompressedCursor + t) % SIZE = s'.mUncompressedCursor + t :=
        Nat.mod_eq_of_lt (by rw [g5]; show self.mUncompressedCursor + t < SIZE; omega)
      refine ⟨by omega, by simpa using g3, ?_, ?_, ?_, ?_, ?_, ?_⟩
      · split_ifs with ht
        · show (s'.mUncompressedCursor + t) % SIZE = _
          rw [hm, g5]
        · rw [g5]; show self.mUncompressedCursor = _; omega
      · split_ifs <;> exact g4
      · split_ifs <;> exact g6
      · split_ifs <;> exact g7
      · split_ifs <;> exact g8
      · intro a b
        split_ifs <;> exact g9 a b
  · cases hl : Read_loop z fuel
        { self with mStream := { self.mStream with avail_out := n } } n 0 [] with
    | none => rw [hl] at h; simp at h
    | some q =>
      rw [hl] at h
      have key := fun hsz hav => Read_loop_frame z hz fuel _ _ 0 [] q hsz hav hl
      obtain ⟨g1, g2, g3, g4, g5, g6, g7, g8, g9⟩ := key (by show n < SIZE; omega) rfl
      obtain ⟨t, o, s'⟩ := q
      simp only [Option.some.injEq] at h
      subst h
      simp only at g1 g2 g3 g4 g5 g6 g7 g8 g9 ⊢
      have hm : (s'.mUncompressedCursor + t) % SIZE = s'.mUncompressedCursor + t :=
        Nat.mod_eq_of_lt (by rw [g5]; show self.mUncompressedCursor + t < SIZE; omega)
      refine ⟨by omega, by simpa using g3, ?_, ?_, ?_, ?_, ?_, ?_⟩
      · split_ifs with ht
        · show (s'.mUncompressedCursor + t) % SIZE = _
          rw [hm, g5]
        · rw [g5]; show self.mUncompressedCursor = _; omega
      · split_ifs <;> exact g4
      · split_ifs <;> exact g6
      · split_ifs <;> exact g7
      · split_ifs <;> exact g8
      · intro a b
        split_ifs <;> exact g9 a b

/-- The refill block does not enlarge the supply of compressed bytes: those at
`next_in` and those from the file position on. -/
theorem Read_refill_supply {σ : Type} (self self' : ZIPFSZipStream σ)
    (h : Read_refill self = some self') :
    self'.mStream.next_in.length + (self'.mFile.data.length - self'.mFile.pos) ≤
      self.mStream.next_in.length + (self.mFile.data.length - self.mFile.pos) := by
  unfold Read_refill at h
  split_ifs at h with h1 h2
  · simp only at h
    split_ifs at h with h3
    simp only [Option.some.injEq] at h
    subst h
    show (fread_bytes self.mFile (Read_cacheSize self)).1.length +
      (self.mFile.data.length - (self.mFile.pos +
        (fread_bytes self.mFile (Read_cacheSize self)).1.length)) ≤ _
    have : (fread_bytes self.mFile (Read_cacheSize self)).1.length ≤
        self.mFile.data.length - self.mFile.pos := by
      unfold fread_bytes
      simp only [List.length_take, List.length_drop]
      omega
    omega
  · simp only [Option.some.injEq] at h
    subst h
    exact le_refl _
  · simp only [Option.some.injEq] at h
    subst h
    exact le_refl _

/-- A call of `inflate` that returns `Z_OK` stored a byte or took one, for a
decompressor that progresses. -/
theorem inflate_call_progress {σ : Type} (z : Zlib σ) (hp : Progresses z) (stream : z_stream σ)
    (h : (inflate_call z stream).2.1 = Z_OK) :
    (inflate_call z stream).2.2.next_in.length ≤ stream.next_in.length ∧
    (0 < (inflate_call z stream).1.length ∨
      (inflate_call z stream).2.2.next_in.length < stream.next_in.length) := by
  unfold inflate_call at h ⊢
  cases hs : stream.state with
  | none => rw [hs] at h; simp only at h; exact absurd h (by decide)
  | some s =>
    rw [hs] at h
    simp only at h ⊢
    obtain ⟨p1, p2⟩ := hp s stream.next_in stream.avail_out
    rw [List.length_drop]
    rcases p2 h with p | p
    · exact ⟨by omega, Or.inr (by omega)⟩
    · exact ⟨by omega, Or.inl p⟩

/-- The loop of `ZIPFSZipStream_Read` ends, for a decompressor that respects
`avail_out` and progresses: one iteration more than the bytes still to store
plus the supply of compressed bytes is enough. -/
theorem Read_loop_terminates {σ : Type} (z : Zlib σ) (hz : OutputBounded z)
    (hp : Progresses z) :
    ∀ (m fuel : Nat) (self : ZIPFSZipStream σ) (size tr : Nat) (out : List Nat),
      size < SIZE → self.mStream.avail_out + tr = size →
      (size - tr) + self.mStream.next_in.length +
        (self.mFile.data.length - self.mFile.pos) ≤ m →
      m < fuel → ∃ r, Read_loop z fuel self size tr out = some r := by
  intro m
  induction m with
  | zero =>
    intro fuel self size tr out hsize hav hm hf
    obtain ⟨fuel, rfl⟩ : ∃ k, fuel = k + 1 := ⟨fuel - 1, by omega⟩
    rw [Read_loop_succ, if_neg (by omega)]
    exact ⟨_, rfl⟩
  | succ m ih =>
    intro fuel self size tr out hsize hav hm hf
    obtain ⟨fuel, rfl⟩ : ∃ k, fuel = k + 1 := ⟨fuel - 1, by omega⟩
    rw [Read_loop_succ]
    split_ifs with h1
    · cases hr : Read_refill self with
      | none => exact ⟨_, rfl⟩
      | some self1 =>
        simp only
        have hsup := Read_refill_supply self self1 hr
        obtain ⟨f1, f2, f3, f4, f5, f6, f7, f8⟩ := Read_refill_frame self self1 hr
        obtain ⟨b1, b2⟩ := inflate_call_bound z hz self1.mStream
        rw [f6] at b1 b2
        split_ifs with h2
        · exact ⟨_, rfl⟩
        · have hok := not_not.1 h2
          obtain ⟨p1, p2⟩ := inflate_call_progress z hp self1.mStream hok
          have hmod : (tr + (inflate_call z self1.mStream).1.length) % SIZE =
              tr + (inflate_call z self1.mStream).1.length := Nat.mod_eq_of_lt (by omega)
          rw [hmod]
          apply ih
          · exact hsize
          · show (inflate_call z self1.mStream).2.2.avail_out + _ = size
            omega
          · show size - (tr + (inflate_call z self1.mStream).1.length) +
              (inflate_call z self1.mStream).2.2.next_in.length +
              (self1.mFile.data.length - self1.mFile.pos) ≤ m
            omega
          · omega
    · exact ⟨_, rfl⟩

/-- The function `ZIPFSZipStream_Read` on a compressed entry, when the request
is not 0 and bytes remain: the loop runs with `size` clamped to what remains,
and the uncompressed cursor advances by `totalRead`. -/
theorem Read_eq_loop {σ : Type} (z : Zlib σ) (fuel : Nat) (self : ZIPFSZipStream σ) (n : Nat)
    (hcomp : self.mEntry.mCompression ≠ 0) (hn : n ≠ 0)
    (hr : size_sub self.mEntry.mUncompressedSize self.mUncompressedCursor ≠ 0) :
    ZIPFSZipStream_Read z fuel self n =
      (Read_loop z fuel
        { self with mStream := { self.mStream with
            avail_out := min n (size_sub self.mEntry.mUncompressedSize self.mUncompressedCursor) } }
        (min n (size_sub self.mEntry.mUncompressedSize self.mUncompressedCursor)) 0 []).map
        (fun q => (q.1, q.2.1,
          if q.1 > 0 then
            { q.2.2 with mUncompressedCursor := (q.2.2.mUncompressedCursor + q.1) % SIZE }
          else q.2.2)) := by
  unfold ZIPFSZipStream_Read
  simp only [if_neg hcomp, if_neg hn, if_neg hr]
  have hmin : (if size_sub self.mEntry.mUncompressedSize self.mUncompressedCursor < n then
      size_sub self.mEntry.mUncompressedSize self.mUncompressedCursor else n) =
      min n (size_sub self.mEntry.mUncompressedSize self.mUncompressedCursor) := by
    split <;> omega
  rw [hmin]
  cases Read_loop z fuel
      { self with mStream := { self.mStream with
          avail_out := min n (size_sub self.mEntry.mUncompressedSize self.mUncompressedCursor) } }
      (min n (size_sub self.mEntry.mUncompressedSize self.mUncompressedCursor)) 0 [] with
  | none => rfl
  | some q => rfl

/-- The function `ZIPFSZipStream_Read` on a compressed entry when the request
is 0 or nothing remains: it returns 0 and leaves the stream as it is. -/
theorem Read_eq_zero {σ : Type} (z : Zlib σ) (fuel : Nat) (self : ZIPFSZipStream σ) (n : Nat)
    (hcomp : self.mEntry.mCompression ≠ 0)
    (h : n = 0 ∨ size_sub self.mEntry.mUncompressedSize self.mUncompressedCursor = 0) :
    ZIPFSZipStream_Read z fuel self n = some (0, [], self) := by
  unfold ZIPFSZipStream_Read
  simp only [if_neg hcomp]
  rcases h with h | h
  · rw [if_pos h]
  · rw [if_pos h]
    split_ifs <;> rfl

/-- The function `ZIPFSZipStream_Read` on a stored entry. -/
theorem Read_eq_stored {σ : Type} (z : Zlib σ) (fuel : Nat) (self : ZIPFSZipStream σ) (n : Nat)
    (hcomp : self.mEntry.mCompression = 0) :
    ZIPFSZipStream_Read z fuel self n =
      some (if n ≠ 0 ∧ (fread_bytes self.mFile n).1.length = n then 1 else 0,
        (fread_bytes self.mFile n).1, { self with mFile := (fread_bytes self.mFile n).2 }) := by
  unfold ZIPFSZipStream_Read
  simp only [if_pos hcomp]

/-- A call of `ZIPFSZipStream_Read` returns, for a decompressor that respects
`avail_out` and progresses. -/
theorem Read_terminates {σ : Type} (z : Zlib σ) (hz : OutputBounded z) (hp : Progresses z)
    (self : ZIPFSZipStream σ) (n : Nat) (fuel : Nat)
    (hf : min n (size_sub self.mEntry.mUncompressedSize self.mUncompressedCursor) +
      self.mStream.next_in.length + (self.mFile.data.length - self.mFile.pos) < fuel) :
    ∃ r, ZIPFSZipStream_Read z fuel self n = some r := by
  have hlt := size_sub_lt self.mEntry.mUncompressedSize self.mUncompressedCursor
  by_cases hcomp : self.mEntry.mCompression = 0
  · exact ⟨_, Read_eq_stored z fuel self n hcomp⟩
  by_cases h : n = 0 ∨ size_sub self.mEntry.mUncompressedSize self.mUncompressedCursor = 0
  · exact ⟨_, Read_eq_zero z fuel self n hcomp h⟩
  · rw [not_or] at h
    rw [Read_eq_loop z fuel self n hcomp h.1 h.2]
    obtain ⟨r, hr⟩ := Read_loop_terminates z hz hp _ fuel
      { self with mStream := { self.mStream with
          avail_out := min n (size_sub self.mEntry.mUncompressedSize self.mUncompressedCursor) } }
      (min n (size_sub self.mEntry.mUncompressedSize self.mUncompressedCursor)) 0 []
      (lt_of_le_of_lt (min_le_right _ _) hlt) rfl (le_refl _) (by
        show min n (size_sub self.mEntry.mUncompressedSize self.mUncompressedCursor) - 0 +
          self.mStream.next_in.length + (self.mFile.data.length - self.mFile.pos) < fuel
        omega)
    rw [hr]
    exact ⟨_, rfl⟩

/-- More iterations do not change what the loop of `ZIPFSZipStream_Read`
returns. -/
theorem Read_loop_mono {σ : Type} (z : Zlib σ) :
    ∀ (fuel : Nat) (self : ZIPFSZipStream σ) (size tr : Nat) (out : List Nat)
      (r : Nat × List Nat × ZIPFSZipStream σ),
      Read_loop z fuel self size tr out = some r →
      ∀ fuel', fuel ≤ fuel' → Read_loop z fuel' self size tr out = some r := by
  intro fuel
  induction fuel with
  | zero => intro self size tr out r h; simp [Read_loop_zero] at h
  | succ fuel ih =>
    intro self size tr out r h fuel' hf
    obtain ⟨fuel', rfl⟩ : ∃ k, fuel' = k + 1 := ⟨fuel' - 1, by omega⟩
    rw [Read_loop_succ] at h ⊢
    split_ifs at h ⊢ with h1
    · cases hr : Read_refill self with
      | none => rw [hr] at h; exact h
      | some self1 =>
        rw [hr] at h
        simp only at h ⊢
        split_ifs at h ⊢ with h2
        · exact h
        · exact ih _ _ _ _ _ h fuel' (by omega)
    · exact h

/-- More iterations do not change what `ZIPFSZipStream_Read` returns. -/
theorem Read_mono {σ : Type} (z : Zlib σ) (fuel fuel' : Nat) (self : ZIPFSZipStream σ)
    (n : Nat) (r : Nat × List Nat × ZIPFSZipStream σ) (hf : fuel ≤ fuel')
    (h : ZIPFSZipStream_Read z fuel self n = some r) :
    ZIPFSZipStream_Read z fuel' self n = some r := by
  by_cases hcomp : self.mEntry.mCompression = 0
  · rw [Read_eq_stored z _ self n hcomp] at h ⊢
    exact h
  by_cases h0 : n = 0 ∨ size_sub self.mEntry.mUncompressedSize self.mUncompressedCursor = 0
  · rw [Read_eq_zero z _ self n hcomp h0] at h ⊢
    exact h
  · rw [not_or] at h0
    rw [Read_eq_loop z _ self n hcomp h0.1 h0.2] at h ⊢
    cases hl : Read_loop z fuel
        { self with mStream := { self.mStream with
            avail_out := min n (size_sub self.mEntry.mUncompressedSize self.mUncompressedCursor) } }
        (min n (size_sub self.mEntry.mUncompressedSize self.mUncompressedCursor)) 0 [] with
    | none => rw [hl] at h; simp at h
    | some q => rw [hl] at h; rw [Read_loop_mono z fuel _ _ _ _ q hl fuel' hf]; exact h

theorem Seek_loop_zero {σ : Type} (z : Zlib σ) (offset : Int) (absOffset : Nat)
    (self : ZIPFSZipStream σ) : Seek_loop z offset absOffset 0 self = none := rfl

theorem Seek_loop_succ {σ : Type} (z : Zlib σ) (offset : Int) (absOffset : Nat) (fuel : Nat)
    (self : ZIPFSZipStream σ) :
    Seek_loop z offset absOffset (fuel + 1) self =
      if self.mUncompressedCursor < absOffset then
        match ZIPFSZipStream_Read z (fuel + 1) self
          (min SCAN_BUFFER_SIZE (size_sub (to_size_t offset) self.mUncompressedCursor)) with
        | none => none
        | some r =>
          if r.1 ≠ min SCAN_BUFFER_SIZE (size_sub (to_size_t offset) self.mUncompressedCursor)
          then some (-1, r.2.2)
          else Seek_loop z offset absOffset fuel r.2.2
      else some (0, self) := by
  have hmin : (if size_sub (to_size_t offset) self.mUncompressedCursor > SCAN_BUFFER_SIZE then
      SCAN_BUFFER_SIZE else size_sub (to_size_t offset) self.mUncompressedCursor) =
      min SCAN_BUFFER_SIZE (size_sub (to_size_t offset) self.mUncompressedCursor) := by
    split <;> omega
  show (if self.mUncompressedCursor < absOffset then
      match ZIPFSZipStream_Read z (fuel + 1) self
        (if size_sub (to_size_t offset) self.mUncompressedCursor > SCAN_BUFFER_SIZE then
          SCAN_BUFFER_SIZE else size_sub (to_size_t offset) self.mUncompressedCursor) with
      | none => none
      | some (read, _, self') =>
        if read ≠ (if size_sub (to_size_t offset) self.mUncompressedCursor > SCAN_BUFFER_SIZE then
          SCAN_BUFFER_SIZE else size_sub (to_size_t offset) self.mUncompressedCursor)
        then some (-1, self') else Seek_loop z offset absOffset fuel self'
    else some (0, self)) = _
  rw [hmin]
  split_ifs with h1
  · cases ZIPFSZipStream_Read z (fuel + 1) self
        (min SCAN_BUFFER_SIZE (size_sub (to_size_t offset) self.mUncompressedCursor)) with
    | none => rfl
    | some r => rfl
  · rfl

/-- The range invariant of a compressed stream: the sizes are 4-byte values
and neither cursor is beyond its size. -/
theorem Read_preserves {σ : Type} (z : Zlib σ) (hz : OutputBounded z) (fuel : Nat)
    (self : ZIPFSZipStream σ) (n : Nat) (r : Nat × List Nat × ZIPFSZipStream σ)
    (hcomp : self.mEntry.mCompression ≠ 0) (hfit : SizesFit self) (hinv : CursorsInRange self)
    (h : ZIPFSZipStream_Read z fuel self n = some r) :
    CursorsInRange r.2.2 ∧ r.2.2.mEntry = self.mEntry ∧ r.2.2.mBufferSize = self.mBufferSize ∧
    r.2.2.mBaseAddr = self.mBaseAddr ∧ r.2.2.mFile.data = self.mFile.data := by
  obtain ⟨g1, g2, g3, g4, g5, g6, g7, g8⟩ := Read_frame z hz fuel self n r hcomp hfit.2 hinv.2 h
  refine ⟨⟨?_, ?_⟩, g4, g5, g6, g7⟩
  · rw [g4]; exact g8 hfit.1 hinv.1
  · rw [g4, g3]
    have := hinv.2
    omega

/-- The loop of `ZIPFSZipStream_Seek` keeps the cursors in range, whatever it
returns. -/
theorem Seek_loop_preserves {σ : Type} (z : Zlib σ) (hz : OutputBounded z) (offset : Int)
    (absOffset : Nat) :
    ∀ (fuel : Nat) (self : ZIPFSZipStream σ) (r : Int × ZIPFSZipStream σ),
      self.mEntry.mCompression ≠ 0 → SizesFit self → CursorsInRange self →
      Seek_loop z offset absOffset fuel self = some r →
      CursorsInRange r.2 ∧ r.2.mEntry = self.mEntry ∧ r.2.mBufferSize = self.mBufferSize ∧
      r.2.mBaseAddr = self.mBaseAddr ∧ r.2.mFile.data = self.mFile.data := by
  intro fuel
  induction fuel with
  | zero => intro self r _ _ _ h; simp [Seek_loop_zero] at h
  | succ fuel ih =>
    intro self r hcomp hfit hinv h
    rw [Seek_loop_succ] at h
    split_ifs at h with h1
    · cases hr : ZIPFSZipStream_Read z (fuel + 1) self
          (min SCAN_BUFFER_SIZE (size_sub (to_size_t offset) self.mUncompressedCursor)) with
      | none => rw [hr] at h; simp at h
      | some q =>
        rw [hr] at h
        simp only at h
        obtain ⟨p1, p2, p3, p4, p5⟩ := Read_preserves z hz _ self _ q hcomp hfit hinv hr
        split_ifs at h with h2
        · simp only [Option.some.injEq] at h
          subst h
          exact ⟨p1, p2, p3, p4, p5⟩
        · obtain ⟨q1, q2, q3, q4, q5⟩ := ih q.2.2 r (by rw [p2]; exact hcomp)
            (by unfold SizesFit; rw [p2]; exact hfit) p1 h
          exact ⟨q1, q2.trans p2, q3.trans p3, q4.trans p4, q5.trans p5⟩
    · simp only [Option.some.injEq] at h
      subst h
      exact ⟨hinv, rfl, rfl, rfl, rfl⟩

/-- The function `ZIPFSZipStream_Seek` in terms of the value `absOffset` that
it computes. -/
theorem Seek_eq {σ : Type} (z : Zlib σ) (fuel : Nat) (self : ZIPFSZipStream σ)
    (offset origin : Int) (absOffset : Nat) (ha : Seek_absOffset self offset origin = absOffset) :
    ZIPFSZipStream_Seek z fuel self offset origin =
      if absOffset > self.mEntry.mUncompressedSize then some (-1, self)
      else if self.mEntry.mCompression = 0 then
        some ((fseek_long self.mFile offset).2, { self with mFile := (fseek_long self.mFile offset).1 })
      else if absOffset < self.mUncompressedCursor then
        if (fseek_set self.mFile self.mBaseAddr).2 ≠ 0 then some (-1, self)
        else
          match z.inflateInit2 with
          | none => some (-1, { self with mFile := (fseek_set self.mFile self.mBaseAddr).1 })
          | some st =>
            Seek_loop z offset absOffset fuel
              { self with
                mFile := (fseek_set self.mFile self.mBaseAddr).1
                mStream := { state := some st, next_in := [], avail_out := 0 }
                mCompressedCursor := 0
                mUncompressedCursor := 0 }
      else Seek_loop z offset absOffset fuel self := by
  subst ha
  rfl

/-- A call of `ZIPFSZipStream_Seek` on a compressed entry keeps the cursors in
range, whatever it returns. -/
theorem Seek_preserves {σ : Type} (z : Zlib σ) (hz : OutputBounded z) (fuel : Nat)
    (self : ZIPFSZipStream σ) (offset origin : Int) (r : Int × ZIPFSZipStream σ)
    (hcomp : self.mEntry.mCompression ≠ 0) (hfit : SizesFit self) (hinv : CursorsInRange self)
    (h : ZIPFSZipStream_Seek z fuel self offset origin = some r) :
    CursorsInRange r.2 ∧ r.2.mEntry = self.mEntry ∧ r.2.mBufferSize = self.mBufferSize ∧
    r.2.mBaseAddr = self.mBaseAddr ∧ r.2.mFile.data = self.mFile.data := by
  obtain ⟨a, ha⟩ : ∃ a, Seek_absOffset self offset origin = a := ⟨_, rfl⟩
  rw [Seek_eq z fuel self offset origin a ha] at h
  split_ifs at h with h1 h2 h3
  · simp only [Option.some.injEq] at h
    subst h
    exact ⟨hinv, rfl, rfl, rfl, rfl⟩
  · simp only [Option.some.injEq] at h
    subst h
    exact ⟨hinv, rfl, rfl, rfl, rfl⟩
  · have hd : (fseek_set self.mFile self.mBaseAddr).1.data = self.mFile.data := by
      unfold fseek_set
      split <;> rfl
    cases hi : z.inflateInit2 with
    | none =>
      rw [hi] at h
      simp only [Option.some.injEq] at h
      subst h
      exact ⟨hinv, rfl, rfl, rfl, hd⟩
    | some st =>
      rw [hi] at h
      simp only at h
      obtain ⟨q1, q2, q3, q4, q5⟩ := Seek_loop_preserves z hz offset _ fuel _ r
        (by exact hcomp) (by exact hfit) (by exact ⟨Nat.zero_le _, Nat.zero_le _⟩) h
      exact ⟨q1, q2, q3, q4, q5.trans hd⟩
  · exact Seek_loop_preserves z hz offset _ fuel self r hcomp hfit hinv h

/-- More iterations do not change what the loop of `ZIPFSZipStream_Seek`
returns. -/
theorem Seek_loop_mono {σ : Type} (z : Zlib σ) (offset : Int) (absOffset : Nat) :
    ∀ (fuel : Nat) (self : ZIPFSZipStream σ) (r : Int × ZIPFSZipStream σ),
      Seek_loop z offset absOffset fuel self = some r →
      ∀ fuel', fuel ≤ fuel' → Seek_loop z offset absOffset fuel' self = some r := by
  intro fuel
  induction fuel with
  | zero => intro self r h; simp [Seek_loop_zero] at h
  | succ fuel ih =>
    intro self r h fuel' hf
    obtain ⟨fuel', rfl⟩ : ∃ k, fuel' = k + 1 := ⟨fuel' - 1, by omega⟩
    rw [Seek_loop_succ] at h ⊢
    split_ifs at h ⊢ with h1
    · cases hr : ZIPFSZipStream_Read z (fuel + 1) self
          (min SCAN_BUFFER_SIZE (size_sub (to_size_t offset) self.mUncompressedCursor)) with
      | none => rw [hr] at h; simp at h
      | some q =>
        rw [hr] at h
        rw [Read_mono z (fuel + 1) (fuel' + 1) self _ q (by omega) hr]
        simp only at h ⊢
        split_ifs at h ⊢ with h2
        · exact h
        · exact ih _ _ h fuel' (by omega)
    · exact h

/-- More iterations do not change what `ZIPFSZipStream_Seek` returns. -/
theorem Seek_mono {σ : Type} (z : Zlib σ) (fuel fuel' : Nat) (self : ZIPFSZipStream σ)
    (offset origin : Int) (r : Int × ZIPFSZipStream σ) (hf : fuel ≤ fuel')
    (h : ZIPFSZipStream_Seek z fuel self offset origin = some r) :
    ZIPFSZipStream_Seek z fuel' self offset origin = some r := by
  obtain ⟨a, ha⟩ : ∃ a, Seek_absOffset self offset origin = a := ⟨_, rfl⟩
  rw [Seek_eq z _ self offset origin a ha] at h ⊢
  split_ifs at h ⊢ with h1 h2 h3 h4
  · exact h
  · exact h
  · exact h
  · cases hi : z.inflateInit2 with
    | none => rw [hi] at h; exact h
    | some st =>
      rw [hi] at h
      exact Seek_loop_mono z offset _ fuel _ r h fuel' hf
  · exact Seek_loop_mono z offset _ fuel _ r h fuel' hf

/-- The loop of `ZIPFSZipStream_Seek` on a compressed entry whose cursor is
below `absOffset` while `offset - self->mUncompressedCursor` is 0: each
iteration reads 0 bytes, so the loop does not end. -/
theorem Seek_loop_stuck {σ : Type} (z : Zlib σ) (offset : Int) (absOffset : Nat)
    (self : ZIPFSZipStream σ) (hcomp : self.mEntry.mCompression ≠ 0)
    (hlt : self.mUncompressedCursor < absOffset)
    (hsize : size_sub (to_size_t offset) self.mUncompressedCursor = 0) :
    ∀ fuel, Seek_loop z offset absOffset fuel self = none := by
  intro fuel
  induction fuel with
  | zero => rfl
  | succ fuel ih =>
    rw [Seek_loop_succ, if_pos hlt, hsize, Nat.min_zero,
      Read_eq_zero z _ self 0 hcomp (Or.inl rfl)]
    simpa using ih

/-! ## The entry stream: opening -/

theorem fread_le_next (n old : Nat) (file : FILE) (h : file.pos + n ≤ file.data.length) :
    (fread_le n old file).2 = { data := file.data, pos := file.pos + n } := by
  have hl : ((file.data.drop file.pos).take n).length = n := by
    rw [List.length_take, List.length_drop]; omega
  show ({ file with pos := file.pos + ((file.data.drop file.pos).take n).length } : FILE) = _
  rw [hl]

theorem read_file_header_sig (file : FILE) (header : FileHeader)
    (h : (read_file_header file header).1 = 0) :
    (fread_le 4 header.mSignature file).1 = FILE_HEADER_SIGNATURE := by
  unfold read_file_header at h
  by_contra hc
  simp only [ne_eq, hc, not_false_eq_true, if_true] at h
  exact absurd h (by decide)

theorem read_file_header_fields (file : FILE) (header : FileHeader)
    (h : (fread_le 4 header.mSignature file).1 = FILE_HEADER_SIGNATURE) :
    (read_file_header file header).2.1.mSignature = FILE_HEADER_SIGNATURE ∧
    (read_file_header file header).2.1.mCrc32 =
      (fread_le 4 header.mCrc32 (fread_le 2 header.mLastModDate
        (fread_le 2 header.mLastModTime (fread_le 2 header.mCompression
          (fread_le 2 header.mFlag (fread_le 2 header.mVersionNeeded
            (fread_le 4 header.mSignature file).2).2).2).2).2).2).1 ∧
    (read_file_header file header).2.2.data = file.data := by
  unfold read_file_header
  simp only [ne_eq, h, not_true_eq_false, if_false, fread_le_data, and_self]

/-- What `read_file_header` returns 0 on: the field `mSignature` it read holds
the signature; where the file holds the 4 bytes at the position, they are the
signature; where it holds the first 18 bytes of the header, the field `mCrc32`
read is the 4 bytes at offset 14 of the header. -/
theorem read_file_header_ok (file : FILE) (header : FileHeader)
    (h : (read_file_header file header).1 = 0) :
    (read_file_header file header).2.1.mSignature = FILE_HEADER_SIGNATURE ∧
    (read_file_header file header).2.2.data = file.data ∧
    (file.pos + 4 ≤ file.data.length → load32 file.data file.pos = FILE_HEADER_SIGNATURE) ∧
    (file.pos + 18 ≤ file.data.length →
      load32 file.data (file.pos + 14) = (read_file_header file header).2.1.mCrc32) := by
  have hsig := read_file_header_sig file header h
  obtain ⟨f1, f2, f3⟩ := read_file_header_fields file header hsig
  refine ⟨f1, f3, ?_, ?_⟩
  · intro hl
    rw [fread_le_full 4 _ file hl] at hsig
    exact hsig
  · intro hl
    rw [f2]
    rw [fread_le_next 4 _ file (by omega)]
    rw [fread_le_next 2 _ ⟨file.data, file.pos + 4⟩
      (by show file.pos + 4 + 2 ≤ file.data.length; omega)]
    rw [fread_le_next 2 _ ⟨file.data, file.pos + 4 + 2⟩
      (by show file.pos + 4 + 2 + 2 ≤ file.data.length; omega)]
    rw [fread_le_next 2 _ ⟨file.data, file.pos + 4 + 2 + 2⟩
      (by show file.pos + 4 + 2 + 2 + 2 ≤ file.data.length; omega)]
    rw [fread_le_next 2 _ ⟨file.data, file.pos + 4 + 2 + 2 + 2⟩
      (by show file.pos + 4 + 2 + 2 + 2 + 2 ≤ file.data.length; omega)]
    rw [fread_le_next 2 _ ⟨file.data, file.pos + 4 + 2 + 2 + 2 + 2⟩
      (by show file.pos + 4 + 2 + 2 + 2 + 2 + 2 ≤ file.data.length; omega)]
    rw [fread_le_full 4 _ ⟨file.data, file.pos + 4 + 2 + 2 + 2 + 2 + 2⟩
      (by show file.pos + 4 + 2 + 2 + 2 + 2 + 2 + 4 ≤ file.data.length; omega)]
    rfl

/-- What a stream returned by `ZIPFSZipStream_Open` is made of. -/
theorem Open_some {σ : Type} (z : Zlib σ) (ZIP_STREAM_BUFFER_MAX : Nat)
    (fs : List Nat → Option (List Nat)) (fileHeader : FileHeader) (archive : ZIPFSZipFile)
    (entryname : List Nat) (self : ZIPFSZipStream σ)
    (h : ZIPFSZipStream_Open z ZIP_STREAM_BUFFER_MAX fs fileHeader archive entryname =
      .val (some self)) :
    ∃ entry data rh,
      ZIPFSZipFile_FindEntry archive entryname = .val (some entry) ∧
      fs (cstr archive.mFilename) = some data ∧
      entry.mFileHeaderAddr ≤ LONG_MAX ∧
      read_file_header { data := data, pos := entry.mFileHeaderAddr } fileHeader = rh ∧
      rh.1 = 0 ∧ rh.2.1.mCrc32 = entry.mCrc32 ∧
      rh.2.2.pos + (rh.2.1.mNameLength + rh.2.1.mExtraFieldLength) ≤ LONG_MAX ∧
      self.mFile =
        ⟨data, rh.2.2.pos + (rh.2.1.mNameLength + rh.2.1.mExtraFieldLength)⟩ ∧
      self.mEntry = entry ∧
      self.mBufferSize = min entry.mCompressedSize ZIP_STREAM_BUFFER_MAX ∧
      self.mBaseAddr = rh.2.2.pos + (rh.2.1.mNameLength + rh.2.1.mExtraFieldLength) ∧
      self.mStream.next_in = [] ∧
      (entry.mCompression ≠ 0 → ∃ st, z.inflateInit2 = some st ∧
        self.mStream = { state := some st, next_in := [], avail_out := 0 }) ∧
      self.mCompressedCursor = 0 ∧ self.mUncompressedCursor = 0 := by
  unfold ZIPFSZipStream_Open at h
  cases hfe : ZIPFSZipFile_FindEntry archive entryname with
  | fault => rw [hfe] at h; simp at h
  | val oe =>
    cases oe with
    | none => rw [hfe] at h; simp at h
    | some entry =>
      rw [hfe] at h
      simp only at h
      cases hfs : fs (cstr archive.mFilename) with
      | none => rw [hfs] at h; simp at h
      | some data =>
        rw [hfs] at h
        simp only at h
        have hseek : entry.mFileHeaderAddr ≤ LONG_MAX := by
          by_contra hc
          unfold fseek_set at h
          simp [hc] at h
        have hs1 : fseek_set { data := data, pos := 0 } entry.mFileHeaderAddr =
            ({ data := data, pos := entry.mFileHeaderAddr }, 0) := by
          unfold fseek_set
          rw [if_pos hseek]
        rw [hs1] at h
        simp only [ne_eq, not_true_eq_false, if_false] at h
        have hdata := fun hz =>
          (read_file_header_ok { data := data, pos := entry.mFileHeaderAddr } fileHeader hz).2.1
        generalize hrd : read_file_header { data := data, pos := entry.mFileHeaderAddr }
          fileHeader = rh at h hdata
        have hmin : (if entry.mCompressedSize < ZIP_STREAM_BUFFER_MAX then entry.mCompressedSize
            else ZIP_STREAM_BUFFER_MAX) = min entry.mCompressedSize ZIP_STREAM_BUFFER_MAX := by
          split <;> omega
        rw [hmin] at h
        by_cases h1 : rh.1 = 0
        swap
        · rw [if_pos h1] at h; simp at h
        rw [if_neg (not_not.2 h1)] at h
        by_cases h2 : rh.2.1.mCrc32 = entry.mCrc32
        swap
        · rw [if_pos h2] at h; simp at h
        rw [if_neg (not_not.2 h2)] at h
        have hfd : rh.2.2.data = data := hdata h1
        by_cases hcur : rh.2.2.pos + (rh.2.1.mNameLength + rh.2.1.mExtraFieldLength) ≤ LONG_MAX
        swap
        · unfold fseek_cur at h
          simp [hcur] at h
        have hs2 : fseek_cur rh.2.2 (rh.2.1.mNameLength + rh.2.1.mExtraFieldLength) =
            (⟨data, rh.2.2.pos + (rh.2.1.mNameLength + rh.2.1.mExtraFieldLength)⟩, 0) := by
          unfold fseek_cur
          rw [if_pos hcur, ← hfd]
        rw [hs2] at h
        simp only [ne_eq, not_true_eq_false, if_false] at h
        by_cases h4 : entry.mCompression = 0
        · rw [if_neg (not_not.2 h4)] at h
          simp only [Res.val.injEq, Option.some.injEq] at h
          subst h
          exact ⟨entry, data, rh, rfl, rfl, hseek, hrd, h1, h2, hcur, rfl, rfl, rfl, rfl, rfl,
            fun hc => absurd h4 hc, rfl, rfl⟩
        · rw [if_pos h4] at h
          cases hi : z.inflateInit2 with
          | none => rw [hi] at h; simp at h
          | some st =>
            rw [hi] at h
            simp only [Res.val.injEq, Option.some.injEq] at h
            subst h
            exact ⟨entry, data, rh, rfl, rfl, hseek, hrd, h1, h2, hcur, rfl, rfl, rfl, rfl, rfl,
              fun _ => ⟨st, rfl, rfl⟩, rfl, rfl⟩

/-- With an entry found, `ZIPFSZipStream_Open` returns: a stream or the null
pointer. -/
theorem Open_returns {σ : Type} (z : Zlib σ) (ZIP_STREAM_BUFFER_MAX : Nat)
    (fs : List Nat → Option (List Nat)) (fileHeader : FileHeader) (archive : ZIPFSZipFile)
    (entryname : List Nat) (entry : ZIPFSZipFileEntry)
    (h : ZIPFSZipFile_FindEntry archive entryname = .val (some entry)) :
    ∃ r, ZIPFSZipStream_Open z ZIP_STREAM_BUFFER_MAX fs fileHeader archive entryname = .val r := by
  unfold ZIPFSZipStream_Open
  rw [h]
  simp only
  cases fs (cstr archive.mFilename) with
  | none => exact ⟨_, rfl⟩
  | some data =>
    simp only
    repeat' split
    all_goals exact ⟨_, rfl⟩

/-! ## The entry stream: what a read returns -/

theorem stored_run_bounds :
    ∀ (input : List Nat) (s : StoredState) (avail : Nat),
      (stored_run input s avail).2.2.length ≤ avail ∧
      (stored_run input s avail).2.1 ≤ input.length := by
  intro input
  induction input with
  | nil => intro s avail; simp [stored_run]
  | cons b input ih =>
    intro s avail
    cases s with
    | head bytes =>
      simp only [stored_run, List.length_cons]
      have := ih (if (bytes ++ [b]).length < 5 then .head (bytes ++ [b])
        else stored_header (bytes ++ [b])) avail
      omega
    | copy left final =>
      by_cases h0 : avail = 0
      · simp [stored_run, h0]
      · have := ih (if left ≤ 1 then (if final then .done else .head []) else .copy (left - 1) final)
          (avail - 1)
        simp only [stored_run, if_neg h0, List.length_cons]
        omega
    | done => simp [stored_run]
    | bad => simp [stored_run]

theorem storedZlib_outputBounded : OutputBounded storedZlib := by
  intro s input avail
  exact (stored_run_bounds input s avail).1

/-- Claim C1 (defect of the code): the archive `archive_shadow` lists
`sub/b.txt` and then `subdir/a.txt`.  `ZIPFSZipFile_New` indexes it, and
`ZIPFSZipFile_FindEntry` on the path `sub/b.txt` of its first entry returns the
null pointer: the lookup takes the directory `subdir`, linked in later at the
head of the chain, for the segment `sub`. -/
theorem FindEntry_misses_indexed_entry :
    ∃ z, ZIPFSZipFile_New disk zeros (str "shadow.zip") = .val (some z) ∧
      ZIPFSZipFile_FindEntry z (str "sub/b.txt") = .val none ∧
      ZIPFSZipFile_FindEntry z (str "subdir/a.txt") =
        .val (some ⟨str "a.txt", 44, 980881731, 0, 5, 5⟩) :=
  ⟨_, rfl, rfl, rfl⟩

/-- Claim C2 (defect of the code): the paths `a.txt` and `A.TXT` are equal
after case folding and name the file in the root of `archive_comment`.  On the
index of that archive `ZIPFSZipFile_FindEntry` returns neither the entry nor the
null pointer for them: the paths hold no `'/'`, and the loop
`for ( ; i >= 0; --i )` reads `filename [ i ]` outside the string.  With a
leading `'/'` both spellings return the entry. -/
theorem FindEntry_case_pair_out_of_bounds :
    ZIPFSZipFile_New disk_streams zeros (str "comment.zip") = .val (some index_comment) ∧
    (str "A.TXT").map tolower = (str "a.txt").map tolower ∧
    ZIPFSZipFile_FindEntry index_comment (str "a.txt") = .fault ∧
    ZIPFSZipFile_FindEntry index_comment (str "A.TXT") = .fault ∧
    ZIPFSZipFile_FindEntry index_comment (str "/a.txt") =
      .val (some ⟨str "a.txt", 0, 907060870, 0, 5, 5⟩) ∧
    ZIPFSZipFile_FindEntry index_comment (str "/A.TXT") =
      .val (some ⟨str "a.txt", 0, 907060870, 0, 5, 5⟩) :=
  ⟨rfl, rfl, rfl, rfl, rfl, rfl⟩

/-- Claim C3 (defect of the code): a segment that is a proper prefix of a
child's name matches that child.  In the tree built from `subdir/a.txt`,
`count_same_nocase` of the name `subdir` and the path `sub/x` is 3, the length
of the segment `sub`; so `ZIPFSZipFile_FindDir` on `sub/x` returns the node
`subdir`, `ZIPFSZipFileDir_AffirmSubDir` returns the existing child for the
segment `sub`, and `ZIPFSZipFile_AddEntry` of `sub/b.txt` files `b.txt` under
`subdir` without creating a directory `sub`. -/
theorem prefix_segment_matches_child :
    count_same_nocase (str "subdir") (str "sub/x") = 3 ∧
    ZIPFSZipFile_FindDir ⟨str "a.zip", some tree_subdir⟩ (some (str "sub/x")) =
      some (.mk (str "subdir") [] [⟨str "a.txt", 0, 907060870, 0, 5, 5⟩]) ∧
    ZIPFSZipFileDir_AffirmSubDir tree_subdir (str "sub/b.txt") 3 = (tree_subdir, 0) ∧
    ZIPFSZipFile_AddEntry tree_subdir (sampleHeader 980881731 5 44) (str "sub/b.txt") =
      .mk [] [.mk (str "subdir") []
        [⟨str "b.txt", 44, 980881731, 0, 5, 5⟩, ⟨str "a.txt", 0, 907060870, 0, 5, 5⟩]] [] :=
  ⟨rfl, rfl, rfl, rfl⟩

/-- Claim C4 (defect of the code): the archive `archive_empty` is the
end-of-central-directory record alone, so the signature stands at offset 0.
The loop `for ( i = scansize - 4; i > 0; --i )` never inspects index 0:
`read_archive_header` returns -1 and `ZIPFSZipFile_New` the null pointer. -/
theorem read_archive_header_misses_offset_zero :
    signatureAt archive_empty 0 ∧
    (∀ header, (read_archive_header ⟨archive_empty, 0⟩ header).1 = -1) ∧
    ZIPFSZipFile_New disk zeros (str "empty.zip") = .val none :=
  ⟨by decide, fun _ => rfl, rfl⟩

/-- Claim C5: whenever `read_archive_header` returns 0 (on a file whose length
`ftell` can report), the record it parses starts at the rightmost match: an
offset `o` at which the signature `0x06054b50` stands inside the file, with no
such offset above `o`; the record returned is the one read from `o`. -/
theorem read_archive_header_rightmost (file : FILE) (header h' : ArchiveHeader) (f' : FILE)
    (hlen : file.data.length ≤ LONG_MAX)
    (hok : read_archive_header file header = (0, h', f')) :
    ∃ o, signatureAt file.data o ∧ (∀ o', signatureAt file.data o' → o' ≤ o) ∧
      read_record { data := file.data, pos := o } header = (h', f') := by
  unfold read_archive_header at hok
  have spec := scan_loop_spec file.data hlen file.data.length
    { file with pos := file.data.length } file.data.length rfl (le_refl _)
    (fun o ho hs => by have := hs.1; omega)
  simp only at hok
  cases hs : (scan_loop file.data.length file.data.length
      { file with pos := file.data.length } file.data.length).1 with
  | none =>
    rw [hs] at hok
    simp only [Prod.mk.injEq] at hok
    omega
  | some off =>
    rw [hs] at hok
    obtain ⟨h1, h2⟩ := spec.2 off hs
    refine ⟨off, h1, h2, ?_⟩
    have hseek : (fseek_set (scan_loop file.data.length file.data.length
        { file with pos := file.data.length } file.data.length).2 off).1
        = { data := file.data, pos := off } := by
      unfold fseek_set
      have := h1.1
      rw [if_pos (by omega)]
      simp [spec.1]
    simp only [hseek, Prod.mk.injEq] at hok
    rw [← hok.2.1, ← hok.2.2]


/-- Witness of claim C5: in `archive_comment` the signature straddles the
boundary of the first window; the scan finds it at offset 91 and parses the
record from there. -/
theorem read_archive_header_rightmost_witness :
    ∃ o, signatureAt archive_comment o ∧ (∀ o', signatureAt archive_comment o' → o' ≤ o) ∧
      read_record { data := archive_comment, pos := o } zeros.header =
        (⟨101010256, 0, 0, 1, 1, 51, 40, 232⟩, ⟨archive_comment, 113⟩) :=
  read_archive_header_rightmost ⟨archive_comment, 0⟩ zeros.header _ _ (by decide) rfl

/-- Claim C6 (defect of the code): in `archive_extra` the central directory
starts at offset 80 and its first header has a name of 5 bytes, an extra field
of 4 bytes and no comment.  After the first iteration `ZIPFSZipFile_New` has
the file at offset 80 + 46 + 5: it reads the next header inside the extra
field, not at 80 + 46 + 5 + 4, and returns the null pointer for this
archive. -/
theorem New_next_header_ignores_extra_field :
    ∃ header file st,
      read_archive_header ⟨archive_extra, 0⟩ zeros.header = (0, header, file) ∧
      New_loop zeros.junk 1 (New_enter file header zeros) = .val (some st) ∧
      header.mCDAddr = 80 ∧
      st.entryHeader.mNameLength = 5 ∧ st.entryHeader.mExtraFieldLength = 4 ∧
      st.entryHeader.mCommentLength = 0 ∧
      st.file.pos = 80 + 46 + 5 ∧
      ZIPFSZipFile_New disk zeros (str "extra.zip") = .val none :=
  ⟨_, _, _, rfl, rfl, rfl, rfl, rfl, rfl, rfl, rfl⟩

/-- Claim C7: index construction is all-or-nothing.  If `ZIPFSZipFile_New` has
run `k` iterations of its loop, `k` below the total number of entries, and the
4 bytes that iteration `k` reads as the signature differ from `0x02014b50`,
then `ZIPFSZipFile_New` returns the null pointer, whatever the earlier
iterations have inserted. -/
theorem New_all_or_nothing (fs : List Nat → Option (List Nat)) (ind : Indeterminate)
    (filename data : List Nat) (header : ArchiveHeader) (file : FILE) (k : Nat) (s : NewState)
    (hopen : fs (cstr filename) = some data)
    (hhdr : read_archive_header { data := data, pos := 0 } ind.header = (0, header, file))
    (hk : k < header.mTotalEntries)
    (hst : New_loop ind.junk k (New_enter file header ind) = .val (some s))
    (havail : s.file.pos + 4 ≤ s.file.data.length)
    (hsig : load32 s.file.data s.file.pos ≠ ENTRY_HEADER_SIGNATURE) :
    ZIPFSZipFile_New fs ind filename = .val none := by
  unfold ZIPFSZipFile_New
  rw [hopen]
  simp only [hhdr]
  rw [New_loop_mismatch ind.junk header.mTotalEntries k _ s hk hst havail hsig]
  split_ifs <;> rfl


/-- Witness of claim C7: in `archive_corrupt` the first entry is inserted, the
second header's signature is damaged, and no index is returned. -/
theorem New_all_or_nothing_witness :
    ZIPFSZipFile_New disk zeros (str "corrupt.zip") = .val none :=
  New_all_or_nothing disk zeros (str "corrupt.zip") archive_corrupt _ _ 1 _ rfl rfl
    (by decide) rfl (by decide) (by decide)

/-- Claim C8: `ZIPFSZipFile_New` returns the null pointer whenever the record
that `read_archive_header` leaves in `header` has a disk number other than 0,
a start disk other than 0, or a per-disk entry count other than the total entry
count, whatever the rest of the file holds. -/
theorem New_rejects_multi_disk (fs : List Nat → Option (List Nat)) (ind : Indeterminate)
    (filename data : List Nat) (result : Int) (header : ArchiveHeader) (file : FILE)
    (hopen : fs (cstr filename) = some data)
    (hhdr : read_archive_header { data := data, pos := 0 } ind.header = (result, header, file))
    (hdisk : header.mDiskNumber ≠ 0 ∨ header.mStartDisk ≠ 0 ∨
      header.mTotalDiskEntries ≠ header.mTotalEntries) :
    ZIPFSZipFile_New fs ind filename = .val none := by
  unfold ZIPFSZipFile_New
  rw [hopen]
  simp only [hhdr]
  split_ifs with h1 h2 h3 h4
  · rfl
  · rfl
  · rfl
  · rfl
  · exfalso
    rcases hdisk with h | h | h
    · exact h (not_not.1 h2)
    · exact h (not_not.1 h3)
    · exact h (not_not.1 h4)

/-- Witness of claim C8: the end record of `archive_disk` has disk number 1. -/
theorem New_rejects_multi_disk_witness :
    ZIPFSZipFile_New disk zeros (str "disk.zip") = .val none :=
  New_rejects_multi_disk disk zeros (str "disk.zip") archive_disk _ _ _ rfl rfl
    (by decide)

/-- Counterexample to claim C9 as stated: in `tree_inner` the path `dir/b.txt`
reaches the node `dir` by its first segment; that node has no child directory,
so the last part `b.txt` matches none, and yet `ZIPFSZipFile_FindDir` returns
the node `dir`: it does not look at the part after the last `'/'`. -/
theorem FindDir_ignores_last_part :
    FindDir_loop tree_inner (str "dir/") 0 (str "dir/") =
      some (.mk (str "dir") [] [⟨str "b.txt", 40, 907060870, 0, 5, 5⟩]) ∧
    (ZIPFSZipFileDir.mk (str "dir") [] [⟨str "b.txt", 40, 907060870, 0, 5, 5⟩]).mChildDirs = [] ∧
    ZIPFSZipFile_FindDir ⟨str "a.zip", some tree_inner⟩ (some (str "dir/b.txt")) =
      some (.mk (str "dir") [] [⟨str "b.txt", 40, 907060870, 0, 5, 5⟩]) :=
  ⟨rfl, rfl, rfl⟩

/-- Claim C9, amended: let the path, after its string is cut at the terminator
and one leading `'/'` is stripped, be `pre ++ seg ++ '/' :: rest`, where `pre`
is empty or ends in `'/'` and `seg` holds no `'/'`, so that `seg` is a segment
followed by `'/'`.  If the walk over `pre` reaches the node `d` and no child
directory of `d` has a name that begins with `seg` ignoring case (so none has
the name `seg`), `ZIPFSZipFile_FindDir` returns the null pointer.  Lookup
creates no node: whatever node a lookup returns is a node of the tree under the
root. -/
theorem FindDir_unmatched_segment (self : ZIPFSZipFile) (root d : ZIPFSZipFileDir)
    (path pre seg rest : List Nat)
    (hroot : self.mRoot = some root)
    (hpath : gobble (cstr path) = pre ++ seg ++ 47 :: rest)
    (hpre : pre = [] ∨ pre.getLast? = some 47)
    (hseg : 47 ∉ seg)
    (hd : FindDir_loop root pre 0 pre = some d)
    (hno : ∀ c ∈ d.mChildDirs, ¬ (seg.map tolower <+: c.mName.map tolower)) :
    ZIPFSZipFile_FindDir self (some path) = none ∧
      ∀ q r, ZIPFSZipFile_FindDir self q = some r → IsNodeOf r root := by
  constructor
  · unfold ZIPFSZipFile_FindDir
    rw [hroot]
    simp only
    rw [hpath]
    have happ := FindDir_loop_append root [] pre (seg ++ 47 :: rest) (by simp)
      (by
        rcases hpre with h | h
        · exact Or.inl ⟨h, rfl⟩
        · exact Or.inr h)
    simp only [List.nil_append, List.length_nil] at happ
    rw [List.append_assoc, happ, hd]
    show FindDir_loop d (seg ++ 47 :: rest) 0 (seg ++ 47 :: rest) = none
    rw [FindDir_loop_segment d _ seg rest 0 hseg]
    have hfind : d.mChildDirs.find?
        (fun cursor => count_same_nocase cursor.mName (seg ++ 47 :: rest) == 0 + seg.length)
        = none := by
      rw [List.find?_eq_none]
      intro c hc hcount
      apply hno c hc
      apply count_same_nocase_leading c.mName seg (47 :: rest)
      simpa using hcount
    rw [hfind]
  · intro q r h
    unfold ZIPFSZipFile_FindDir at h
    rw [hroot] at h
    cases q with
    | none => simp at h
    | some q => exact FindDir_loop_node _ _ _ _ _ h

/-- Witness of claim C9: in `tree_inner` the path `sub/zzz/f` reaches the node
`sub`, whose only child directory is `inner`; the segment `zzz` is unmatched. -/
theorem FindDir_unmatched_segment_witness :
    ZIPFSZipFile_FindDir ⟨str "a.zip", some tree_inner⟩ (some (str "sub/zzz/f")) = none ∧
      ∀ q r, ZIPFSZipFile_FindDir ⟨str "a.zip", some tree_inner⟩ q = some r →
        IsNodeOf r tree_inner :=
  FindDir_unmatched_segment ⟨str "a.zip", some tree_inner⟩ tree_inner
    (.mk (str "sub") [.mk (str "inner") [] []] []) (str "sub/zzz/f") (str "sub/") (str "zzz")
    (str "f") rfl rfl (Or.inr rfl) (by decide) rfl (by decide)

/-- Claim C10 (defect of the code): the archive `archive_dirs` lists the
directories `sub/inner/` and `subdir/`.  `ZIPFSZipFile_New` indexes it and
creates the directory `sub/inner/`; `ZIPFSZipFile_FindEntry` on `sub/inner/`
returns the null pointer, as the claim says, but so does
`ZIPFSZipFile_FindDir`: it takes the directory `subdir` for the segment `sub`
and finds no `inner` under it. -/
theorem FindDir_misses_created_directory :
    ∃ z, ZIPFSZipFile_New disk zeros (str "dirs.zip") = .val (some z) ∧
      z.mRoot = some (.mk [] [.mk (str "subdir") [] [],
        .mk (str "sub") [.mk (str "inner") [] []] []] []) ∧
      ZIPFSZipFile_FindEntry z (str "sub/inner/") = .val none ∧
      ZIPFSZipFile_FindDir z (some (str "sub/inner/")) = none :=
  ⟨_, rfl, rfl, rfl, rfl⟩

/-- Claim C11: `ZIPFSZipStream_Open` returns the null pointer whenever the 4
bytes that the file holds at the entry's `mFileHeaderAddr` are not the
signature `0x04034b50`, and whenever the CRC-32 field that the file holds at
offset 14 of that header differs from the `mCrc32` of the entry that
`ZIPFSZipFile_FindEntry` returns.  When it returns a stream, the header that
`read_file_header` read at `mFileHeaderAddr` has the signature and the entry's
CRC-32, and both cursors are 0. -/
theorem Open_checks_local_header {σ : Type} (z : Zlib σ) (ZIP_STREAM_BUFFER_MAX : Nat)
    (fs : List Nat → Option (List Nat)) (fileHeader : FileHeader) (archive : ZIPFSZipFile)
    (entryname : List Nat) :
    (∀ entry data, ZIPFSZipFile_FindEntry archive entryname = .val (some entry) →
      fs (cstr archive.mFilename) = some data →
      (entry.mFileHeaderAddr + 4 ≤ data.length ∧
        load32 data entry.mFileHeaderAddr ≠ FILE_HEADER_SIGNATURE) ∨
      (entry.mFileHeaderAddr + 18 ≤ data.length ∧
        load32 data (entry.mFileHeaderAddr + 14) ≠ entry.mCrc32) →
      ZIPFSZipStream_Open z ZIP_STREAM_BUFFER_MAX fs fileHeader archive entryname = .val none) ∧
    (∀ self : ZIPFSZipStream σ,
      ZIPFSZipStream_Open z ZIP_STREAM_BUFFER_MAX fs fileHeader archive entryname =
        .val (some self) →
      ∃ entry data, ZIPFSZipFile_FindEntry archive entryname = .val (some entry) ∧
        fs (cstr archive.mFilename) = some data ∧
        self.mEntry = entry ∧ self.mFile.data = data ∧
        (read_file_header ⟨data, entry.mFileHeaderAddr⟩ fileHeader).2.1.mSignature =
          FILE_HEADER_SIGNATURE ∧
        (read_file_header ⟨data, entry.mFileHeaderAddr⟩ fileHeader).2.1.mCrc32 = entry.mCrc32 ∧
        self.mCompressedCursor = 0 ∧ self.mUncompressedCursor = 0) := by
  constructor
  · intro entry data hfe hfs hbad
    obtain ⟨r, hr⟩ := Open_returns z ZIP_STREAM_BUFFER_MAX fs fileHeader archive entryname entry hfe
    cases r with
    | none => exact hr
    | some self =>
      exfalso
      obtain ⟨entry', data', rh, e1, e2, -, e4, e5, e6, -⟩ :=
        Open_some z ZIP_STREAM_BUFFER_MAX fs fileHeader archive entryname self hr
      rw [hfe] at e1
      rw [hfs] at e2
      simp only [Res.val.injEq, Option.some.injEq] at e1 e2
      subst e1 e2 e4
      obtain ⟨-, -, k3, k4⟩ :=
        read_file_header_ok ⟨data, entry.mFileHeaderAddr⟩ fileHeader e5
      rcases hbad with ⟨b1, b2⟩ | ⟨b1, b2⟩
      · exact b2 (k3 b1)
      · exact b2 ((k4 b1).trans e6)
  · intro self hopen
    obtain ⟨entry, data, rh, e1, e2, -, e4, e5, e6, -, e8, e9, -, -, -, -, e14, e15⟩ :=
      Open_some z ZIP_STREAM_BUFFER_MAX fs fileHeader archive entryname self hopen
    subst e4
    refine ⟨entry, data, e1, e2, e9, ?_, ?_, e6, e14, e15⟩
    · rw [e8]
    · exact (read_file_header_ok ⟨data, entry.mFileHeaderAddr⟩ fileHeader e5).1

/-- Witness of claim C11: the index of `archive_pair` opened on a file that
does not start with a local header gives the null pointer; opened on
`archive_pair` itself it gives a stream, and the checks hold. -/
theorem Open_checks_local_header_witness :
    ZIPFSZipStream_Open storedZlib 4096 (fun _ => some archive_empty) zeroHeader index_pair
      (str "dir/b.txt") = .val none ∧
    ∃ entry data, ZIPFSZipFile_FindEntry index_pair (str "dir/b.txt") = .val (some entry) ∧
      disk_streams (cstr index_pair.mFilename) = some data ∧
      stream_pair.mEntry = entry ∧ stream_pair.mFile.data = data ∧
      (read_file_header ⟨data, entry.mFileHeaderAddr⟩ zeroHeader).2.1.mSignature =
        FILE_HEADER_SIGNATURE ∧
      (read_file_header ⟨data, entry.mFileHeaderAddr⟩ zeroHeader).2.1.mCrc32 = entry.mCrc32 ∧
      stream_pair.mCompressedCursor = 0 ∧ stream_pair.mUncompressedCursor = 0 :=
  ⟨(Open_checks_local_header storedZlib 4096 (fun _ => some archive_empty) zeroHeader index_pair
      (str "dir/b.txt")).1 ⟨str "b.txt", 0, 907060870, 0, 5, 5⟩ archive_empty rfl rfl
      (Or.inl ⟨by decide, by decide⟩),
   (Open_checks_local_header storedZlib 4096 disk_streams zeroHeader index_pair
      (str "dir/b.txt")).2 stream_pair rfl⟩

/-- Claim C13 (defect of the code): with `SEEK_END` the function takes
`entry->mUncompressedSize` for the target and ignores `offset`.  On the stored
entry `dir/b.txt` of `archive_pair` (5 bytes) the call
`ZIPFSZipStream_Seek ( self, 5, SEEK_END )`, whose target 5 + 5 is beyond the
entry, returns 0 and moves the file to offset 5 of the archive.  On the
deflated entry of `archive_big` (300 bytes) the same call does not return:
after 5 bytes the loop reads `offset - cursor = 0` bytes for ever. -/
theorem Seek_end_ignores_offset :
    ZIPFSZipFile_New disk_streams zeros (str "pair.zip") = .val (some index_pair) ∧
    ZIPFSZipStream_Open storedZlib 4096 disk_streams zeroHeader index_pair (str "dir/b.txt") =
      .val (some stream_pair) ∧
    stream_pair.mEntry.mUncompressedSize = 5 ∧
    Seek_absOffset stream_pair 5 SEEK_END = 5 ∧
    (∀ fuel, ZIPFSZipStream_Seek storedZlib fuel stream_pair 5 SEEK_END =
      some (0, { stream_pair with mFile := ⟨archive_pair, 5⟩ })) ∧
    ZIPFSZipStream_Open storedZlib 4096 disk_streams zeroHeader index_big (str "dir/big.bin") =
      .val (some stream_big) ∧
    stream_big.mEntry.mUncompressedSize = 300 ∧
    (∀ fuel, ZIPFSZipStream_Seek storedZlib fuel stream_big 5 SEEK_END = none) := by
  refine ⟨rfl, rfl, rfl, rfl, fun _ => rfl, rfl, rfl, ?_⟩
  intro fuel
  rw [Seek_eq storedZlib fuel stream_big 5 SEEK_END 300 rfl]
  rw [if_neg (by decide), if_neg (by decide), if_neg (by decide)]
  match fuel with
  | 0 => rfl
  | 1 => rfl
  | fuel + 2 =>
    rw [Seek_loop_succ, if_pos (by decide)]
    have hr : ZIPFSZipStream_Read storedZlib 2 stream_big 5 =
        some (5, [0, 1, 2, 3, 4],
          { stream_big with
            mFile := ⟨archive_big, 346⟩
            mStream := { state := some (.copy 295 true), next_in := content_big.drop 5,
                         avail_out := 0 }
            mCompressedCursor := 305
            mUncompressedCursor := 5 }) := rfl
    have hm : min SCAN_BUFFER_SIZE (size_sub (to_size_t 5) stream_big.mUncompressedCursor) = 5 :=
      rfl
    rw [hm, Read_mono storedZlib 2 (fuel + 1 + 1) stream_big 5 _ (by omega) hr]
    simp only [ne_eq, not_true_eq_false, if_false]
    exact Seek_loop_stuck storedZlib 5 300
      { stream_big with
        mFile := ⟨archive_big, 346⟩
        mStream := { state := some (.copy 295 true), next_in := content_big.drop 5,
                     avail_out := 0 }
        mCompressedCursor := 305
        mUncompressedCursor := 5 } (by decide) (by decide) rfl (fuel + 1)

/-- Claim C14 (defect of the code): the loop of `ZIPFSZipStream_Seek` reads
`offset - cursor` bytes, not `absOffset - cursor`.  On the deflated entry of
`archive_big`, after a read of 5 bytes, `ZIPFSZipStream_Seek ( self, 3,
SEEK_CUR )` has the target 8; the loop asks for `3 - 5`, a wrapped value
clamped to 256, reads 256 bytes and returns 0 with the cursor at 261.  On the
freshly opened stream `ZIPFSZipStream_Seek ( self, 0, SEEK_END )` does not
return. -/
theorem Seek_cur_overshoots_target :
    ZIPFSZipStream_Open storedZlib 4096 disk_streams zeroHeader index_big (str "dir/big.bin") =
      .val (some stream_big) ∧
    ∃ s1 s2,
      (∀ k, ZIPFSZipStream_Read storedZlib (10 + k) stream_big 5 =
        some (5, [0, 1, 2, 3, 4], s1)) ∧
      ZIPFSZipStream_Tell s1 = 5 ∧
      (∀ k, ZIPFSZipStream_Seek storedZlib (10 + k) s1 3 SEEK_CUR = some (0, s2)) ∧
      ZIPFSZipStream_Tell s2 = 261 ∧
      (∀ fuel, ZIPFSZipStream_Seek storedZlib fuel stream_big 0 SEEK_END = none) := by
  refine ⟨rfl, _, _, fun k => Read_mono storedZlib 10 (10 + k) stream_big 5 _ (by omega) rfl, rfl,
    fun k => Seek_mono storedZlib 10 (10 + k) _ 3 SEEK_CUR _ (by omega) rfl, rfl, ?_⟩
  intro fuel
  rw [Seek_eq storedZlib fuel stream_big 0 SEEK_END 300 rfl]
  rw [if_neg (by decide), if_neg (by decide), if_neg (by decide)]
  exact Seek_loop_stuck storedZlib 0 300 stream_big (by decide) (by decide) rfl fuel

/-- Claim C15 (defect of the code): for a stored entry the function returns
`fread ( buffer, size, 1, file )`, the number of items of `size` bytes, and
does not clamp `size` to what remains of the entry.  On the entry `dir/b.txt`
of `archive_pair` (the 5 bytes `hello`) a read of 5 bytes returns 1, and a read
of 10 bytes returns 1 and stores, after `hello`, the first 5 bytes of the next
local header. -/
theorem Read_stored_returns_item_count :
    ZIPFSZipStream_Open storedZlib 4096 disk_streams zeroHeader index_pair (str "dir/b.txt") =
      .val (some stream_pair) ∧
    stream_pair.mEntry.mCompression = 0 ∧ stream_pair.mEntry.mUncompressedSize = 5 ∧
    (∀ fuel, ZIPFSZipStream_Read storedZlib fuel stream_pair 5 =
      some (1, str "hello", { stream_pair with mFile := ⟨archive_pair, 44⟩ })) ∧
    (∀ fuel, ZIPFSZipStream_Read storedZlib fuel stream_pair 10 =
      some (1, str "hello" ++ [80, 75, 3, 4, 20],
        { stream_pair with mFile := ⟨archive_pair, 49⟩ })) ∧
    (∀ fuel, ZIPFSZipStream_Read storedZlib fuel
        { stream_pair with mFile := ⟨archive_pair, 44⟩ } 5 =
      some (1, [80, 75, 3, 4, 20], { stream_pair with mFile := ⟨archive_pair, 49⟩ })) :=
  ⟨rfl, rfl, rfl, fun _ => rfl, fun _ => rfl, fun _ => rfl⟩

/-- Claim C16 (defect of the code): for a stored entry the function returns
`fseek ( file, offset, SEEK_SET )`, so the file goes to `offset` from the start
of the archive and not from `mBaseAddr`.  On the entry `dir/b.txt` of
`archive_pair`, whose data `hello` start at offset 39, the call
`ZIPFSZipStream_Seek ( self, 2, SEEK_SET )` returns 0 and leaves the file at
offset 2; the read of 3 bytes that follows stores bytes 2 to 4 of the local
header, not `llo`. -/
theorem Seek_stored_uses_archive_offset :
    ZIPFSZipStream_Open storedZlib 4096 disk_streams zeroHeader index_pair (str "dir/b.txt") =
      .val (some stream_pair) ∧
    stream_pair.mEntry.mCompression = 0 ∧ stream_pair.mBaseAddr = 39 ∧
    (stream_pair.mFile.data.drop stream_pair.mBaseAddr).take 5 = str "hello" ∧
    (∀ fuel, ZIPFSZipStream_Seek storedZlib fuel stream_pair 2 SEEK_SET =
      some (0, { stream_pair with mFile := ⟨archive_pair, 2⟩ })) ∧
    (∀ fuel, ZIPFSZipStream_Read storedZlib fuel
        { stream_pair with mFile := ⟨archive_pair, 2⟩ } 3 =
      some (1, [3, 4, 20], { stream_pair with mFile := ⟨archive_pair, 5⟩ })) :=
  ⟨rfl, rfl, rfl, rfl, fun _ => rfl, fun _ => rfl⟩

/-- Claim C17: on a compressed entry whose uncompressed cursor is within the
entry, and for a decompressor that stores no more than `avail_out` bytes, a
call of `ZIPFSZipStream_Read` with the request `n` that returns, returns the
number `r` of bytes it stored, `r` is at most `n` and at most
`mUncompressedSize - mUncompressedCursor`, and the uncompressed cursor advances
by exactly `r`.  With `n = 0`, or with no uncompressed bytes left, the call
returns 0 and leaves the stream as it is.  The call does return when the
decompressor returns `Z_OK` only after it took input or produced output. -/
theorem Read_compressed_bounds {σ : Type} (z : Zlib σ) (hz : OutputBounded z)
    (self : ZIPFSZipStream σ) (n : Nat) (hcomp : self.mEntry.mCompression ≠ 0)
    (hs : self.mEntry.mUncompressedSize < SIZE)
    (hc : self.mUncompressedCursor ≤ self.mEntry.mUncompressedSize) :
    (∀ fuel r, ZIPFSZipStream_Read z fuel self n = some r →
      r.1 ≤ min n (self.mEntry.mUncompressedSize - self.mUncompressedCursor) ∧
      r.2.1.length = r.1 ∧
      r.2.2.mUncompressedCursor = self.mUncompressedCursor + r.1 ∧
      r.2.2.mEntry = self.mEntry) ∧
    (n = 0 ∨ self.mUncompressedCursor = self.mEntry.mUncompressedSize →
      ∀ fuel, ZIPFSZipStream_Read z fuel self n = some (0, [], self)) ∧
    (Progresses z → ∀ fuel,
      min n (self.mEntry.mUncompressedSize - self.mUncompressedCursor) +
        self.mStream.next_in.length + (self.mFile.data.length - self.mFile.pos) < fuel →
      ∃ r, ZIPFSZipStream_Read z fuel self n = some r) := by
  refine ⟨?_, ?_, ?_⟩
  · intro fuel r h
    obtain ⟨g1, g2, g3, g4, -⟩ := Read_frame z hz fuel self n r hcomp hs hc h
    exact ⟨g1, g2, g3, g4⟩
  · intro h fuel
    apply Read_eq_zero z fuel self n hcomp
    rcases h with h | h
    · exact Or.inl h
    · right
      rw [size_sub_eq _ _ hc hs]
      omega
  · intro hp fuel hf
    apply Read_terminates z hz hp self n fuel
    rw [size_sub_eq _ _ hc hs]
    exact hf

/-- Witness of claim C17: a read of 5 bytes from the freshly opened deflated
entry of `archive_big` returns 5 with the cursor at 5. -/
theorem Read_compressed_bounds_witness :
    ∃ r, ZIPFSZipStream_Read storedZlib 10 stream_big 5 = some r ∧
      r.1 = 5 ∧ r.2.1 = [0, 1, 2, 3, 4] ∧
      r.1 ≤ min 5 (stream_big.mEntry.mUncompressedSize - stream_big.mUncompressedCursor) ∧
      r.2.1.length = r.1 ∧
      r.2.2.mUncompressedCursor = stream_big.mUncompressedCursor + r.1 ∧
      r.2.2.mEntry = stream_big.mEntry :=
  ⟨_, rfl, rfl, rfl,
    (Read_compressed_bounds storedZlib storedZlib_outputBounded stream_big 5 (by decide)
      (by decide) (by decide)).1 10 _ rfl⟩

/-- Claim C18: the cursor invariant of a compressed stream, for a decompressor
that stores no more than `avail_out` bytes (`fread` transfers no more than it
is asked for).  Both cursors are in range in the stream that
`ZIPFSZipStream_Open` returns.  From a stream whose cursors are in range, every
call of `ZIPFSZipStream_Read` and every call of `ZIPFSZipStream_Seek` that
returns, whatever the value, leaves a stream of the same entry whose cursors
are in range.  The refill of the buffer asks `fread` for the minimum of
`mBufferSize` and `mCompressedSize - mCompressedCursor` bytes, and gets no
more. -/
theorem cursors_stay_in_range {σ : Type} (z : Zlib σ) (hz : OutputBounded z) :
    (∀ ZIP_STREAM_BUFFER_MAX fs fileHeader archive entryname (fresh : ZIPFSZipStream σ),
      ZIPFSZipStream_Open z ZIP_STREAM_BUFFER_MAX fs fileHeader archive entryname =
        .val (some fresh) → CursorsInRange fresh) ∧
    (∀ self : ZIPFSZipStream σ, self.mEntry.mCompression ≠ 0 → SizesFit self →
      CursorsInRange self →
      (∀ fuel n r, ZIPFSZipStream_Read z fuel self n = some r →
        CursorsInRange r.2.2 ∧ r.2.2.mEntry = self.mEntry) ∧
      (∀ fuel offset origin r, ZIPFSZipStream_Seek z fuel self offset origin = some r →
        CursorsInRange r.2 ∧ r.2.mEntry = self.mEntry) ∧
      Read_cacheSize self =
        min self.mBufferSize (self.mEntry.mCompressedSize - self.mCompressedCursor) ∧
      (fread_bytes self.mFile (Read_cacheSize self)).1.length ≤ Read_cacheSize self) := by
  constructor
  · intro MAX fs fileHeader archive entryname fresh h
    obtain ⟨entry, data, rh, -, -, -, -, -, -, -, -, -, -, -, -, -, e14, e15⟩ :=
      Open_some z MAX fs fileHeader archive entryname fresh h
    unfold CursorsInRange
    rw [e14, e15]
    exact ⟨Nat.zero_le _, Nat.zero_le _⟩
  · intro self hcomp hfit hinv
    refine ⟨?_, ?_, Read_cacheSize_eq self hfit hinv, fread_bytes_length_le _ _⟩
    · intro fuel n r h
      obtain ⟨p1, p2, -⟩ := Read_preserves z hz fuel self n r hcomp hfit hinv h
      exact ⟨p1, p2⟩
    · intro fuel offset origin r h
      obtain ⟨p1, p2, -⟩ := Seek_preserves z hz fuel self offset origin r hcomp hfit hinv h
      exact ⟨p1, p2⟩

/-- Witness of claim C18: the stream opened on the deflated entry of
`archive_big`, the stream after a read of 5 bytes and the stream after a seek
to offset 7 have their cursors in range; the first refill asks for 305
bytes. -/
theorem cursors_stay_in_range_witness :
    CursorsInRange stream_big ∧
    (∃ r, ZIPFSZipStream_Read storedZlib 10 stream_big 5 = some r ∧
      CursorsInRange r.2.2 ∧ r.2.2.mEntry = stream_big.mEntry) ∧
    (∃ r, ZIPFSZipStream_Seek storedZlib 10 stream_big 7 SEEK_SET = some r ∧
      CursorsInRange r.2 ∧ r.2.mEntry = stream_big.mEntry) ∧
    Read_cacheSize stream_big = min 305 (305 - 0) :=
  ⟨(cursors_stay_in_range storedZlib storedZlib_outputBounded).1 4096 disk_streams zeroHeader
      index_big (str "dir/big.bin") stream_big rfl,
   ⟨_, rfl, ((cursors_stay_in_range storedZlib storedZlib_outputBounded).2 stream_big
      (by decide) (by decide) (by decide)).1 10 5 _ rfl⟩,
   ⟨_, rfl, ((cursors_stay_in_range storedZlib storedZlib_outputBounded).2 stream_big
      (by decide) (by decide) (by decide)).2.1 10 7 SEEK_SET _ rfl⟩,
   ((cursors_stay_in_range storedZlib storedZlib_outputBounded).2 stream_big
      (by decide) (by decide) (by decide)).2.2.1⟩

/-- Claim C19 (defect of the code): `archive_comment` holds the file `a.txt`
in the archive root.  On its index, `ZIPFSZipFile_FindEntry` with the filename
`a.txt` reads outside the string: the loop `for ( ; i >= 0; --i )` finds no
`'/'` down to index 0, the `size_t` index wraps and `filename [ i ]` is read at
`SIZE_MAX`.  With the empty filename the first test already reads
`filename [ strlen ( filename ) - 1 ]` at `SIZE_MAX`. -/
theorem FindEntry_root_file_out_of_bounds :
    ZIPFSZipFile_New disk_streams zeros (str "comment.zip") = .val (some index_comment) ∧
    ZIPFSZipFile_FindEntry index_comment (str "a.txt") = .fault ∧
    ZIPFSZipFile_FindEntry index_comment (str "") = .fault ∧
    ZIPFSZipFile_FindEntry index_comment (str "/a.txt") =
      .val (some ⟨str "a.txt", 0, 907060870, 0, 5, 5⟩) :=
  ⟨rfl, rfl, rfl, rfl⟩

/-- Claim C20 (defect of the code): the growth step adds `SCAN_BUFFER_SIZE`
once.  `archive_long` has one entry whose name is 256 bytes long; the block,
empty before, grows to 256 bytes, 256 bytes are read into it and the store
`nameBuffer [ 256 ] = 0` is outside the block. -/
theorem New_name_buffer_overflow :
    name_long.length = 256 ∧ SCAN_BUFFER_SIZE = 256 ∧
    ZIPFSZipFile_New disk_streams zeros (str "long.zip") = .fault :=
  ⟨rfl, rfl, rfl⟩

/-! ## Further properties -/

/-- The scan is complete above offset 0: on a file whose length `ftell` can
report and in which the signature stands at some offset `o ≥ 1`,
`read_archive_header` returns 0. -/
theorem read_archive_header_finds (file : FILE) (header : ArchiveHeader) (o : Nat)
    (hlen : file.data.length ≤ LONG_MAX) (ho : 1 ≤ o) (hs : signatureAt file.data o) :
    (read_archive_header file header).1 = 0 := by
  unfold read_archive_header
  simp only
  cases hscan : (scan_loop file.data.length file.data.length
      { file with pos := file.data.length } file.data.length).1 with
  | some off => rfl
  | none =>
    exfalso
    exact scan_loop_none file.data hlen file.data.length
      { file with pos := file.data.length } file.data.length rfl (le_refl _)
      (le_refl _) (fun o' ho' hs' => by have := hs'.1; omega) hscan o ho hs

/-- In `archive_shadow` the signature stands at offset 204, and the scan
returns 0. -/
theorem read_archive_header_finds_witness :
    (read_archive_header ⟨archive_shadow, 0⟩ zeros.header).1 = 0 :=
  read_archive_header_finds ⟨archive_shadow, 0⟩ zeros.header 204 (by decide) (by decide)
    (by decide)

/-- A path that ends in `'/'` names no file: for every index and every
non-empty string that ends in `'/'`, `ZIPFSZipFile_FindEntry` returns the null
pointer. -/
theorem FindEntry_trailing_slash (self : ZIPFSZipFile) (path : List Nat)
    (h0 : 0 ∉ path) (hlast : path.getLast? = some 47) :
    ZIPFSZipFile_FindEntry self path = .val none := by
  unfold ZIPFSZipFile_FindEntry
  simp only [cstr_eq_self path h0]
  cases hl : path.length with
  | zero =>
    have : path = [] := List.length_eq_zero.1 hl
    subst this
    simp at hlast
  | succ i =>
    have hget : path.getD i 0 = 47 := by
      rw [List.getLast?_eq_getElem?] at hlast
      rw [hl] at hlast
      simp only [Nat.add_sub_cancel] at hlast
      rw [List.getD_eq_getElem?_getD, hlast]
      rfl
    simp only [hget, if_true]

/-- The directory path `sub/inner/` resolves to no file. -/
theorem FindEntry_trailing_slash_witness :
    ZIPFSZipFile_FindEntry ⟨str "a.zip", some tree_inner⟩ (str "sub/inner/") = .val none :=
  FindEntry_trailing_slash ⟨str "a.zip", some tree_inner⟩ (str "sub/inner/") (by decide)
    (by decide)

/-- Insertion followed by lookup: for every tree, every header and every path
that holds a `'/'` and does not end in one, after `ZIPFSZipFile_AddEntry` adds
the entry, `ZIPFSZipFile_FindEntry` on the same path returns an entry with the
header's `mFileHeaderAddr`, `mCrc32`, `mCompression`, `mCompressedSize` and
`mUncompressedSize`. -/
theorem AddEntry_FindEntry (filename : List Nat) (root : ZIPFSZipFileDir)
    (header : EntryHeader) (path : List Nat)
    (h0 : 0 ∉ path) (hslash : 47 ∈ path) (hlast : path.getLast? ≠ some 47) :
    ∃ entry,
      ZIPFSZipFile_FindEntry ⟨filename, some (ZIPFSZipFile_AddEntry root header path)⟩ path =
        .val (some entry) ∧
      entry.mFileHeaderAddr = header.mFileHeaderAddr ∧ entry.mCrc32 = header.mCrc32 ∧
      entry.mCompression = header.mCompression ∧
      entry.mCompressedSize = header.mCompressedSize ∧
      entry.mUncompressedSize = header.mUncompressedSize := by
  obtain ⟨segs, file, hsegs, hfile, hp⟩ := joinPath_decompose path
  have hsegs_ne : segs ≠ [] := by
    intro h
    subst h
    exact hfile (by simpa [hp, joinPath] using hslash)
  obtain ⟨a, ha⟩ := joinPath_last_slash segs file hsegs_ne
  have hpa : path = a ++ 47 :: file := hp.trans ha
  have hne : file ≠ [] := by
    intro h
    subst h
    apply hlast
    rw [hpa]
    simp
  obtain ⟨segs', hsegs', hg⟩ := gobble_joinPath segs file hsegs hfile
  rw [← hp] at hg
  obtain ⟨d, hd1, hd2⟩ := AddEntry_FindDir header segs' file hsegs' hfile hne root
  refine ⟨newEntry header file, ?_, rfl, rfl, rfl, rfl, rfl⟩
  unfold ZIPFSZipFile_FindEntry ZIPFSZipFile_FindDir ZIPFSZipFile_AddEntry
  simp only [cstr_eq_self path h0, hg]
  obtain ⟨m, hm⟩ : ∃ m, file.length = m + 1 :=
    ⟨file.length - 1, by have := List.length_pos.2 hne; omega⟩
  have hlen : path.length = (a.length + file.length) + 1 := by
    rw [hpa, List.length_append, List.length_cons]
    omega
  rw [hlen]
  simp only
  have hget : path.getD (a.length + file.length) 0 ≠ 47 := by
    rw [hpa, hm, getD_append_file]
    exact getD_ne_slash file hfile m (by omega)
  rw [if_neg hget, hd1]
  simp only
  have hscan : FindEntry_scan path (a.length + file.length) = some file := by
    rw [hpa]
    exact FindEntry_scan_last a file hfile _ (le_refl _)
  rw [hscan]
  simp only
  cases hfiles : d.mChildFiles with
  | nil => rw [hfiles] at hd2; simp at hd2
  | cons e es =>
    rw [hfiles] at hd2
    simp only [List.head?_cons, Option.some.injEq] at hd2
    subst hd2
    simp [List.find?_cons, newEntry, copy_string, stricmp_self]


/-- The entry `Dir/SubDir/File.txt` is found after its insertion into the tree
`tree_inner`. -/
theorem AddEntry_FindEntry_witness :
    ∃ entry,
      ZIPFSZipFile_FindEntry ⟨str "a.zip", some (ZIPFSZipFile_AddEntry tree_inner
        (sampleHeader 980881731 5 44) (str "Dir/SubDir/File.txt"))⟩ (str "Dir/SubDir/File.txt") =
        .val (some entry) ∧
      entry.mFileHeaderAddr = 44 ∧ entry.mCrc32 = 980881731 ∧ entry.mCompression = 0 ∧
      entry.mCompressedSize = 5 ∧ entry.mUncompressedSize = 5 :=
  AddEntry_FindEntry (str "a.zip") tree_inner (sampleHeader 980881731 5 44)
    (str "Dir/SubDir/File.txt") (by decide) (by decide) (by decide)

/-- On an index with a root node, `ZIPFSZipFile_FindEntry` with a filename that
holds no `'/'` (the name of a file in the archive root, or the empty string)
reads outside the string. -/
theorem FindEntry_without_slash (self : ZIPFSZipFile) (root : ZIPFSZipFileDir)
    (hroot : self.mRoot = some root) (filename : List Nat) (hs : 47 ∉ cstr filename) :
    ZIPFSZipFile_FindEntry self filename = .fault := by
  unfold ZIPFSZipFile_FindEntry
  simp only
  cases hl : (cstr filename).length with
  | zero => rfl
  | succ i =>
    simp only
    rw [if_neg (getD_ne_of_not_mem (cstr filename) hs i)]
    have hdir : ZIPFSZipFile_FindDir self (some (cstr filename)) = some root := by
      unfold ZIPFSZipFile_FindDir
      rw [hroot]
      simp only
      rw [cstr_eq_self (cstr filename) (zero_not_mem_cstr filename),
        gobble_of_not_mem (cstr filename) hs]
      exact FindDir_loop_file root _ _ 0 hs
    rw [hdir]
    simp only
    rw [FindEntry_scan_none (cstr filename) hs i]

/-- The root file `a.txt` of `archive_comment` and the empty filename, on the
index of that archive. -/
theorem FindEntry_without_slash_witness :
    ZIPFSZipFile_FindEntry index_comment (str "a.txt") = .fault ∧
    ZIPFSZipFile_FindEntry index_comment (str "") = .fault :=
  ⟨FindEntry_without_slash index_comment _ rfl (str "a.txt") (by decide),
   FindEntry_without_slash index_comment _ rfl (str "") (by decide)⟩

/-- Path resolution ignores case.  For every index and every two paths that are
equal after ASCII case folding, `ZIPFSZipFile_FindEntry` has the same outcome
on both; when the paths hold a `'/'` both calls return, and return the same:
the same entry or the null pointer on both. -/
theorem FindEntry_case_insensitive (self : ZIPFSZipFile) (p q : List Nat)
    (h : p.map tolower = q.map tolower) :
    ZIPFSZipFile_FindEntry self p = ZIPFSZipFile_FindEntry self q ∧
    (47 ∈ cstr p → ∃ r, ZIPFSZipFile_FindEntry self p = .val r ∧
      ZIPFSZipFile_FindEntry self q = .val r) := by
  have heq : ZIPFSZipFile_FindEntry self p = ZIPFSZipFile_FindEntry self q := by
    rw [← FindEntry_map_tolower self p, ← FindEntry_map_tolower self q, h]
  refine ⟨heq, fun hs => ?_⟩
  obtain ⟨r, hr⟩ := FindEntry_slash_returns self p hs
  exact ⟨r, hr, heq ▸ hr⟩

/-- The two spellings of the spec's example resolve to the same entry. -/
theorem FindEntry_case_insensitive_witness :
    ∃ r, ZIPFSZipFile_FindEntry ⟨str "a.zip", some tree_mixed⟩ (str "Dir/SubDir/File.txt") =
        .val r ∧
      ZIPFSZipFile_FindEntry ⟨str "a.zip", some tree_mixed⟩ (str "dir/subdir/file.TXT") =
        .val r ∧ r.isSome = true :=
  match (FindEntry_case_insensitive ⟨str "a.zip", some tree_mixed⟩ (str "Dir/SubDir/File.txt")
    (str "dir/subdir/file.TXT") (by decide)).2 (by decide) with
  | ⟨r, h1, h2⟩ => ⟨r, h1, h2, by
      have : ZIPFSZipFile_FindEntry ⟨str "a.zip", some tree_mixed⟩ (str "Dir/SubDir/File.txt") =
        .val (some ⟨str "File.txt", 0, 907060870, 0, 5, 5⟩) := rfl
      rw [this] at h1
      simp only [Res.val.injEq] at h1
      rw [← h1]
      rfl⟩

end ZIPFS
